import Mathlib

/-!
Verification of the fixture-planning core in `src/app/bfv/page.tsx`.

Strings of the TypeScript source are modelled as `List Char`; JavaScript's
`null | string` becomes `Option (List Char)`.  Opaque database identifiers
(pitch ids, booking ids, team ids) are modelled as `Nat`.  Instants that the
source only ever compares numerically (`Date` values built from ISO strings)
are modelled as `Int` epoch milliseconds.  Each definition mirrors one
function of the source file; the source location is given in its doc comment.
-/

set_option autoImplicit false

namespace FbsPlan

/-! ### Characters and JS string primitives -/

/-- Latin small letter a with diaeresis, U+00E4. -/
def chAuml : Char := Char.ofNat 228

/-- Latin small letter o with diaeresis, U+00F6. -/
def chOuml : Char := Char.ofNat 246

/-- Latin small letter u with diaeresis, U+00FC. -/
def chUuml : Char := Char.ofNat 252

/-- Latin small letter sharp s, U+00DF. -/
def chSzlig : Char := Char.ofNat 223

/-- Latin capital letter A with diaeresis, U+00C4. -/
def chAumlU : Char := Char.ofNat 196

/-- Latin capital letter O with diaeresis, U+00D6. -/
def chOumlU : Char := Char.ofNat 214

/-- Latin capital letter U with diaeresis, U+00DC. -/
def chUumlU : Char := Char.ofNat 220

/-- Combining diaeresis, U+0308, produced by NFKD decomposition of umlauts. -/
def chComb : Char := Char.ofNat 776

/-- En dash, U+2013, one of the two separators accepted by `splitHomeAway`. -/
def chEnDash : Char := Char.ofNat 8211

/-- JavaScript whitespace (as recognised by `trim`, `trimStart` and the `\s`
regex class), restricted to the characters that can actually occur here:
tab, line feed, vertical tab, form feed, carriage return, space, NBSP. -/
def isJsWs (c : Char) : Bool :=
  c = ' ' || c = Char.ofNat 9 || c = Char.ofNat 10 || c = Char.ofNat 11 ||
    c = Char.ofNat 12 || c = Char.ofNat 13 || c = Char.ofNat 160

/-- JavaScript `toLowerCase`, restricted to ASCII letters and the German
capital umlauts that are relevant to this code base. -/
def jsToLower (c : Char) : Char :=
  if 'A' ≤ c ∧ c ≤ 'Z' then Char.ofNat (c.toNat + 32)
  else if c = chAumlU then chAuml
  else if c = chOumlU then chOuml
  else if c = chUumlU then chUuml
  else c

/-- JavaScript `toUpperCase`, restricted to ASCII (booking statuses are
ASCII strings). -/
def jsToUpper (c : Char) : Char :=
  if 'a' ≤ c ∧ c ≤ 'z' then Char.ofNat (c.toNat - 32) else c

/-- Unicode NFKD decomposition of one character, restricted to the characters
relevant here: the precomposed German umlauts decompose into the base letter
followed by the combining diaeresis; sharp s has no decomposition; ASCII
characters are unchanged. -/
def nfkdChar (c : Char) : List Char :=
  if c = chAuml then ['a', chComb]
  else if c = chOuml then ['o', chComb]
  else if c = chUuml then ['u', chComb]
  else [c]

/-- NFKD normalisation of a string (characterwise, see `nfkdChar`). -/
def nfkdStr (s : List Char) : List Char := (s.map nfkdChar).flatten

/-- JS replace of the combining-mark range by the empty string: drop the
combining marks U+0300..U+036F (page.tsx 131). -/
def stripCombining (s : List Char) : List Char :=
  s.filter (fun c => !(768 ≤ c.toNat && c.toNat ≤ 879))

/-- JS `replace(/<target>/g, repl)` for a single-character pattern. -/
def replaceChar (target : Char) (repl : List Char) (s : List Char) : List Char :=
  (s.map (fun c => if c = target then repl else [c])).flatten

/-- Lowercase ASCII letter or digit, the class `[a-z0-9]` of the source. -/
def isLowAlnum (c : Char) : Bool :=
  ('a' ≤ c && c ≤ 'z') || ('0' ≤ c && c ≤ '9')

/-- JS `replace(/<class>+/g, " ")`: every maximal run of characters matching
`p` becomes a single space.  The boolean argument records whether the
previous character was part of a run. -/
def collapseRuns (p : Char → Bool) : Bool → List Char → List Char
  | _, [] => []
  | prev, c :: rest =>
      if p c then
        if prev then collapseRuns p true rest else ' ' :: collapseRuns p true rest
      else c :: collapseRuns p false rest

/-- JS `trimStart`. -/
def jsTrimStart (s : List Char) : List Char := s.dropWhile isJsWs

/-- JS `trim` (strip JS whitespace at both ends). -/
def jsTrim (s : List Char) : List Char :=
  ((s.dropWhile isJsWs).reverse.dropWhile isJsWs).reverse

/-- Function `normalizeForMatch` (page.tsx 127-139): lowercase, NFKD, strip
combining marks, the four umlaut replacements, collapse non-alphanumeric
runs to spaces, collapse whitespace runs, trim.  The stages appear in the
exact order of the source's method chain. -/
def normalizeForMatch (s : List Char) : List Char :=
  jsTrim
    (collapseRuns isJsWs false
      (collapseRuns (fun c => !isLowAlnum c) false
        (replaceChar chSzlig ('s' :: ['s'])
          (replaceChar chUuml ('u' :: ['e'])
            (replaceChar chOuml ('o' :: ['e'])
              (replaceChar chAuml ('a' :: ['e'])
                (stripCombining (nfkdStr (s.map jsToLower)))))))))

example : normalizeForMatch ("FC  Stern!".toList) = "fc stern".toList := by decide

example : normalizeForMatch [chUuml] = ['u'] := by decide

example : normalizeForMatch [chSzlig] = ['s', 's'] := by decide

/-! ### Match tokens and home/away classification -/

/-- JS `hay.includes(needle)`: substring containment. -/
def jsIncludes (hay needle : List Char) : Bool :=
  match hay with
  | [] => needle.isEmpty
  | c :: rest => needle.isPrefixOf (c :: rest) || jsIncludes rest needle

/-- JS `split(" ")` on a single-space separator. -/
def splitOnSpace : List Char → List (List Char)
  | [] => [[]]
  | c :: rest =>
      if c = ' ' then [] :: splitOnSpace rest
      else
        match splitOnSpace rest with
        | l :: ls => (c :: l) :: ls
        | [] => [[c]]

/-- Constant `STOPWORDS` (page.tsx 141-162). -/
def STOPWORDS : List (List Char) :=
  ["fc", "tsv", "sv", "sc", "sg", "jfg", "ev", "e", "v", "muenchen", "munchen",
    "muench", "m", "ii", "iii", "iv", "i", "u", "junioren", "juniorinnen"].map
    String.toList

/-- ASCII digit. -/
def isDigitCh (c : Char) : Bool := '0' ≤ c && c ≤ '9'

/-- The age-category pattern of `buildMatchTokens`: a `u` followed by one or
two digits. -/
def isAgeToken (w : List Char) : Bool :=
  match w with
  | 'u' :: ds => (decide (ds.length = 1) || decide (ds.length = 2)) && ds.all isDigitCh
  | _ => false

/-- Word filter of `buildMatchTokens` (page.tsx 168-174): drop empty words,
stop words, age-category patterns and words shorter than 3 characters. -/
def tokenKeep (w : List Char) : Bool :=
  !w.isEmpty && !STOPWORDS.contains w && !isAgeToken w && decide (3 ≤ w.length)

/-- Deduplication that keeps the first occurrence, as JS
`Array.from(new Set(tokens))` does. -/
def dedupKeepFirst (seen : List (List Char)) : List (List Char) → List (List Char)
  | [] => []
  | x :: xs =>
      if seen.contains x then dedupKeepFirst seen xs
      else x :: dedupKeepFirst (x :: seen) xs

/-- Function `buildMatchTokens` (page.tsx 164-177): normalise every name,
split on spaces, filter with `tokenKeep`, deduplicate. -/
def buildMatchTokens (names : List (List Char)) : List (List Char) :=
  dedupKeepFirst []
    ((names.map (fun n => (splitOnSpace (normalizeForMatch n)).filter tokenKeep)).flatten)

/-- Split at the first occurrence of the separator sequence `sep`, returning
the part before and the part after; `none` when `sep` does not occur (that is
JS `includes` returning false). -/
def splitAtSeq (sep : List Char) : List Char → Option (List Char × List Char)
  | [] => if sep.isEmpty then some ([], []) else none
  | c :: rest =>
      if sep.isPrefixOf (c :: rest) then some ([], (c :: rest).drop sep.length)
      else
        match splitAtSeq sep rest with
        | some (a, b) => some (c :: a, b)
        | none => none

/-- Second element of JS `split(sep)`: the segment between the first and the
second occurrence of `sep` in the remainder `rest'` after the first split. -/
def jsSplitSecond (sep rest' : List Char) : List Char :=
  match splitAtSeq sep rest' with
  | some (r1, _) => r1
  | none => rest'

/-- Separator `" - "`. -/
def sepSpHyphen : List Char := [' ', '-', ' ']

/-- Separator with an en dash. -/
def sepSpEnDash : List Char := [' ', chEnDash, ' ']

/-- One `if (teamPart.includes(sep))` branch of `splitHomeAway`
(page.tsx 182-189): split on the separator, use the first two segments; when
the separator is absent or a segment is empty, fall through (`none`). -/
def tryHyphenSplit (sep teamPart : List Char) : Option (List Char × List Char) :=
  match splitAtSeq sep teamPart with
  | none => none
  | some (l, rest') =>
      let r := jsSplitSecond sep rest'
      if !l.isEmpty && !r.isEmpty then some (jsTrim l, jsTrim r) else none

/-- Split at the first hyphen or en dash character, returning the text before
and after it. -/
def splitAtFirstDash : List Char → Option (List Char × List Char)
  | [] => none
  | c :: rest =>
      if c = '-' ∨ c = chEnDash then some ([], rest)
      else
        match splitAtFirstDash rest with
        | some (a, b) => some (c :: a, b)
        | none => none

/-- The final regex attempt of `splitHomeAway` (page.tsx 191-192).  The lazy
group, greedy whitespace and dash class amount to: split at the first hyphen
or en dash, strip whitespace adjacent to it, and require both sides to be
nonempty. -/
def regexDashSplit (teamPart : List Char) : Option (List Char × List Char) :=
  match splitAtFirstDash teamPart with
  | none => none
  | some (pre, post) =>
      let m1 := (pre.reverse.dropWhile isJsWs).reverse
      let m2 := post.dropWhile isJsWs
      if !m1.isEmpty && !m2.isEmpty then some (jsTrim m1, jsTrim m2) else none

/-- Function `splitHomeAway` (page.tsx 179-195): take the text before the
first comma (or the whole summary when that is empty), then try `" - "`, the
en-dash variant, and finally the relaxed regex. -/
def splitHomeAway (summary : List Char) : Option (List Char × List Char) :=
  let tp0 := summary.takeWhile (fun c => c ≠ ',')
  let teamPart := if tp0.isEmpty then summary else tp0
  match tryHyphenSplit sepSpHyphen teamPart with
  | some p => some p
  | none =>
      match tryHyphenSplit sepSpEnDash teamPart with
      | some p => some p
      | none => regexDashSplit teamPart

/-- The `matchSide` closure inside `loadGames` (page.tsx 439-442). -/
def matchSide (tokens : List (List Char)) (s : List Char) : Bool :=
  if tokens.isEmpty then false
  else tokens.any (fun t => jsIncludes (normalizeForMatch s) t)

/-- The home/away classification of one game inside `loadGames`
(page.tsx 436-460): with a side split, left-only means home, right-only means
away, both sides matching means home, neither means unknown; without a side
split the venue text decides between home and unknown. -/
def classifyIsHome (tokens : List (List Char)) (summary : List Char)
    (location : Option (List Char)) : Option Bool :=
  let locNorm := normalizeForMatch (location.getD [])
  match splitHomeAway summary with
  | some (l, r) =>
      let leftMatch := matchSide tokens l
      let rightMatch := matchSide tokens r
      if leftMatch && !rightMatch then some true
      else if rightMatch && !leftMatch then some false
      else if leftMatch && rightMatch then some true
      else none
  | none =>
      if !tokens.isEmpty && tokens.any (fun t => jsIncludes locNorm t) then some true
      else none

example : buildMatchTokens ["FC Stern".toList] = ["stern".toList] := by decide

example :
    classifyIsHome (buildMatchTokens ["FC Stern".toList])
      ("FC Stern - SV Gegner, Kreisliga".toList) none = some true := by decide

example :
    classifyIsHome (buildMatchTokens ["FC Stern".toList])
      ("SV Gegner - FC Stern".toList) none = some false := by decide

example :
    classifyIsHome (buildMatchTokens ["FC Stern".toList])
      ("FC Stern - TSV Stern II".toList) none = some true := by decide

example :
    classifyIsHome (buildMatchTokens ["FC Stern".toList])
      ("Spieltag 5".toList) none = none := by decide

/-! ### The fixture tag -/

/-- The literal tag prefix of the pattern in `findBfvUid` (page.tsx 199). -/
def bfvTagHead : List Char := ['[', 'B', 'F', 'V', '_', 'U', 'I', 'D', ':']

/-- Case-insensitive prefix test: the `i` flag of the regex, ASCII folding. -/
def startsWithCi : List Char → List Char → Bool
  | [], _ => true
  | _ :: _, [] => false
  | p :: ps, c :: cs => (jsToLower c = jsToLower p) && startsWithCi ps cs

/-- Drop a case-insensitive prefix, returning the remainder when it matches. -/
def dropPrefixCi : List Char → List Char → Option (List Char)
  | [], s => some s
  | _ :: _, [] => none
  | p :: ps, c :: cs =>
      if jsToLower c = jsToLower p then dropPrefixCi ps cs else none

/-- One attempted regex match at the current position: the tag prefix
(case-insensitively), at least one character other than a closing bracket,
then the closing bracket; the captured group is returned. -/
def matchTagAt (s : List Char) : Option (List Char) :=
  match dropPrefixCi bfvTagHead s with
  | none => none
  | some rest =>
      let body := rest.takeWhile (fun c => c ≠ ']')
      if !body.isEmpty && ((rest.drop body.length).head? == some ']') then some body
      else none

/-- Leftmost regex match: scan every position of the note. -/
def findBfvUidIn : List Char → Option (List Char)
  | [] => none
  | c :: rest =>
      match matchTagAt (c :: rest) with
      | some b => some b
      | none => findBfvUidIn rest

/-- Function `findBfvUid` (page.tsx 197-201): `null` and the empty note give
`null`, otherwise the capture of the first match of the tag pattern. -/
def findBfvUid (note : Option (List Char)) : Option (List Char) :=
  match note with
  | none => none
  | some s => if s.isEmpty then none else findBfvUidIn s

/-- The fixed part of the note before the summary, the literal `[BFV] `. -/
def notePre : List Char := ['[', 'B', 'F', 'V', ']', ' ']

/-- The note written by `bookApproved` (page.tsx 528). -/
def mkBookingNote (summary uid : List Char) : List Char :=
  notePre ++ summary ++ '\n' :: (bfvTagHead ++ uid ++ [']'])

/-- Whether the tag prefix occurs (case-insensitively) anywhere in a string. -/
def hasTagHeadCi : List Char → Bool
  | [] => false
  | c :: rest => startsWithCi bfvTagHead (c :: rest) || hasTagHeadCi rest

/-- Condition for the scan of `s ++ t` to find nothing inside `s`: no
nonempty suffix of `s`, continued by `t`, starts with the tag prefix. -/
def noTagAcross : List Char → List Char → Bool
  | [], _ => true
  | c :: cs, t => !startsWithCi bfvTagHead ((c :: cs) ++ t) && noTagAcross cs t

example : findBfvUid (some (mkBookingNote ("Spiel".toList) ("abc123".toList)))
    = some ("abc123".toList) := by decide

example : findBfvUid (some (mkBookingNote ("x [bfv_uid:evil] y".toList) ("abc".toList)))
    = some ("evil".toList) := by decide

/-! Lemmas about the tag scan. -/

theorem dropPrefixCi_startsWithCi (p : List Char) :
    ∀ s r, dropPrefixCi p s = some r → startsWithCi p s = true := by
  induction p with
  | nil => intro s r _; cases s <;> simp [startsWithCi]
  | cons q ps ih =>
      intro s r h
      cases s with
      | nil => simp [dropPrefixCi] at h
      | cons c cs =>
          simp only [dropPrefixCi] at h
          by_cases hc : jsToLower c = jsToLower q
          · rw [if_pos hc] at h
            simp [startsWithCi, hc, ih cs r h]
          · rw [if_neg hc] at h; exact absurd h (by simp)

theorem matchTagAt_startsWithCi (s : List Char) (b : List Char)
    (h : matchTagAt s = some b) : startsWithCi bfvTagHead s = true := by
  unfold matchTagAt at h
  cases hd : dropPrefixCi bfvTagHead s with
  | none => rw [hd] at h; exact absurd h (by simp)
  | some rest => exact dropPrefixCi_startsWithCi _ _ _ hd

theorem startsWithCi_before_nl (p : List Char)
    (hp : ∀ c ∈ p, jsToLower c ≠ '\n') :
    ∀ s r, startsWithCi p (s ++ '\n' :: r) = true → startsWithCi p s = true := by
  induction p with
  | nil => intro s r _; cases s <;> simp [startsWithCi]
  | cons q ps ih =>
      intro s r h
      cases s with
      | nil =>
          simp only [List.nil_append, startsWithCi, Bool.and_eq_true,
            decide_eq_true_eq] at h
          have e : jsToLower '\n' = '\n' := rfl
          rw [e] at h
          exact absurd h.1.symm (hp q (by simp))
      | cons c cs =>
          simp only [List.cons_append, startsWithCi, Bool.and_eq_true] at h ⊢
          exact ⟨h.1, ih (fun c hc => hp c (by simp [hc])) cs r h.2⟩

theorem noTagAcross_of_clean (s : List Char) (r : List Char)
    (h : hasTagHeadCi s = false) : noTagAcross s ('\n' :: r) = true := by
  induction s with
  | nil => rfl
  | cons c cs ih =>
      simp only [hasTagHeadCi, Bool.or_eq_false_iff] at h
      simp only [noTagAcross, Bool.and_eq_true, Bool.not_eq_true']
      refine ⟨?_, ih h.2⟩
      cases hs : startsWithCi bfvTagHead ((c :: cs) ++ '\n' :: r) with
      | false => rfl
      | true =>
          have := startsWithCi_before_nl bfvTagHead (by decide) (c :: cs) r hs
          rw [this] at h
          exact absurd h.1 (by simp)

/-- Unfolding step of the scan when the current position does not match. -/
theorem findBfvUidIn_cons_none {c : Char} {cs : List Char}
    (h : matchTagAt (c :: cs) = none) : findBfvUidIn (c :: cs) = findBfvUidIn cs := by
  rw [findBfvUidIn, h]

/-- Unfolding step of the scan when the current position matches. -/
theorem findBfvUidIn_cons_some {c : Char} {cs b : List Char}
    (h : matchTagAt (c :: cs) = some b) : findBfvUidIn (c :: cs) = some b := by
  rw [findBfvUidIn, h]

theorem findBfvUidIn_skip (s : List Char) (t : List Char)
    (h : noTagAcross s t = true) : findBfvUidIn (s ++ t) = findBfvUidIn t := by
  induction s with
  | nil => rfl
  | cons c cs ih =>
      simp only [noTagAcross, Bool.and_eq_true, Bool.not_eq_true'] at h
      have h1 : startsWithCi bfvTagHead (c :: (cs ++ t)) = false := h.1
      have hm : matchTagAt (c :: (cs ++ t)) = none := by
        cases hmt : matchTagAt (c :: (cs ++ t)) with
        | none => rfl
        | some b =>
            have hst := matchTagAt_startsWithCi _ _ hmt
            rw [h1] at hst
            exact absurd hst (by simp)
      calc findBfvUidIn ((c :: cs) ++ t)
          = findBfvUidIn (c :: (cs ++ t)) := by rw [List.cons_append]
        _ = findBfvUidIn (cs ++ t) := findBfvUidIn_cons_none hm
        _ = findBfvUidIn t := ih h.2

theorem takeWhile_ne_append (uid : List Char) (h : ']' ∉ uid) :
    (uid ++ [']']).takeWhile (fun c => c ≠ ']') = uid := by
  induction uid with
  | nil => simp [List.takeWhile]
  | cons c cs ih =>
      simp only [List.mem_cons, not_or] at h
      simp only [List.cons_append, List.takeWhile_cons]
      rw [if_pos (by simpa using Ne.symm (Ne.intro h.1))]
      · exact congrArg (c :: ·) (ih h.2)

/-- The tag round-trip kernel, shared by the reconciler invariant: on a note
written by `bookApproved` whose summary does not itself contain the tag
prefix, the scan captures exactly the fixture id. -/
theorem findBfvUidIn_mkNote (summary uid : List Char)
    (h1 : uid ≠ []) (h2 : ']' ∉ uid) (h3 : hasTagHeadCi summary = false) :
    findBfvUidIn (mkBookingNote summary uid) = some uid := by
  have hdrop : dropPrefixCi bfvTagHead (bfvTagHead ++ (uid ++ [']'])) = some (uid ++ [']']) := rfl
  have htake : (uid ++ [']']).takeWhile (fun c => c ≠ ']') = uid := takeWhile_ne_append uid h2
  have hdroplen : (uid ++ [']']).drop uid.length = [']'] := by
    simp [List.drop_left]
  have hmatch : matchTagAt (bfvTagHead ++ (uid ++ [']'])) = some uid := by
    unfold matchTagAt
    rw [hdrop]
    simp only [htake, hdroplen]
    simp [List.isEmpty_iff, h1]
  have hnl : matchTagAt ('\n' :: (bfvTagHead ++ (uid ++ [']']))) = none := rfl
  have step3 : findBfvUidIn ('\n' :: (bfvTagHead ++ (uid ++ [']']))) = some uid := by
    rw [findBfvUidIn_cons_none hnl]
    exact findBfvUidIn_cons_some hmatch
  have e1 :
      mkBookingNote summary uid
        = notePre ++ (summary ++ '\n' :: (bfvTagHead ++ (uid ++ [']']))) := by
    simp [mkBookingNote, List.append_assoc]
  rw [e1,
    findBfvUidIn_skip notePre (summary ++ '\n' :: (bfvTagHead ++ (uid ++ [']']))) rfl,
    findBfvUidIn_skip summary ('\n' :: (bfvTagHead ++ (uid ++ [']'])))
      (noTagAcross_of_clean summary _ h3),
    step3]

/-! ### Pitches, bookings, availability -/

/-- Pitch surface class (`"GROSSFELD" | "KOMPAKT"`). -/
inductive PitchType
  | GROSSFELD
  | KOMPAKT
deriving DecidableEq

/-- Type `Pitch` (page.tsx 14).  Opaque string ids become naturals. -/
structure Pitch where
  id : Nat
  name : List Char
  type : PitchType
deriving DecidableEq

/-- Type `Booking` (page.tsx 27-36).  The ISO timestamp strings `start_at`
and `end_at` are modelled by their epoch values, since the source only ever
converts them with `new Date` and compares them numerically. -/
structure Booking where
  id : Nat
  start_at : Int
  end_at : Int
  status : List Char
  note : Option (List Char)
  team_id : Nat
  pitch_id : Nat
  created_by : Nat
deriving DecidableEq

/-- Type `Team` (page.tsx 15): a local club team. -/
structure Team where
  id : Nat
  name : List Char
  age_u : Int
deriving DecidableEq

/-- Constant `BLOCKING_STATUSES` (page.tsx 334). -/
def BLOCKING_STATUSES : List (List Char) := ["REQUESTED".toList, "APPROVED".toList]

/-- The blocking test `BLOCKING_STATUSES.has(String(b.status || "").toUpperCase())`
(page.tsx 356). -/
def isBlockingStatus (status : List Char) : Bool :=
  BLOCKING_STATUSES.contains (status.map jsToUpper)

/-- Function `overlaps` (page.tsx 336-338): half-open interval overlap. -/
def overlaps (aStart aEnd bStart bEnd : Int) : Bool :=
  aStart < bEnd && bStart < aEnd

/-- Function `allowedPitchesForAge` (page.tsx 340-349): from U14 on, only
full-size pitches whose lowercased name contains `mitte` or `rechts`. -/
def allowedPitchesForAge (pitches : List Pitch) (ageU : Option Int) : List Pitch :=
  match ageU with
  | some a =>
      if a ≥ 14 then
        pitches.filter (fun p =>
          (p.type = PitchType.GROSSFELD) &&
            (jsIncludes (p.name.map jsToLower) ("mitte".toList) ||
              jsIncludes (p.name.map jsToLower) ("rechts".toList)))
      else pitches
  | none => pitches

/-- Function `getAvailablePitches` (page.tsx 351-365): age-eligible pitches
with no overlapping occupancy-blocking booking. -/
def getAvailablePitches (pitches : List Pitch) (ageU : Option Int)
    (gStart gEnd : Int) (bookingsList : List Booking) : List Pitch :=
  let candidates := allowedPitchesForAge pitches ageU
  let blockingBookings := bookingsList.filter (fun b => isBlockingStatus b.status)
  candidates.filter (fun p =>
    !(blockingBookings.any (fun b =>
        if b.pitch_id ≠ p.id then false
        else overlaps gStart gEnd b.start_at b.end_at)))

/-- The query of `loadBookingsForRange` (page.tsx 372-376): only rows with
`start_at >= rangeStart` and, strictly, `end_at < rangeEnd` are returned;
the page's `bookings` state and both uid maps are then rebuilt from this
result alone, so a booking with `end_at` equal to the range end is dropped
on every reload. -/
def loadBookingsInRange (rangeStart rangeEnd : Int) (store : List Booking) :
    List Booking :=
  store.filter (fun b => rangeStart ≤ b.start_at && b.end_at < rangeEnd)

/-- The `uidToBookingId` map built in `loadBookingsForRange`
(page.tsx 383-391): a JS object written left to right, so a later booking
with the same embedded uid overwrites an earlier one. -/
def buildUidMap (list : List Booking) : List Char → Option Nat :=
  list.foldl
    (fun m b =>
      match findBfvUid b.note with
      | none => m
      | some uid => fun k => if k = uid then some b.id else m k)
    (fun _ => none)

/-- The `uidToPitchId` map built in `loadBookingsForRange` (page.tsx 383-392). -/
def buildPitchMap (list : List Booking) : List Char → Option Nat :=
  list.foldl
    (fun m b =>
      match findBfvUid b.note with
      | none => m
      | some uid => fun k => if k = uid then some b.pitch_id else m k)
    (fun _ => none)

/-- Default pitch selection for one game in `loadGames` (page.tsx 481-490):
the already booked pitch if the fixture is booked, otherwise the first
available pitch (none when no pitch is free). -/
def defaultPitchFor (uidToPitchId : List Char → Option Nat) (pitches : List Pitch)
    (ageU : Option Int) (uid : List Char) (gStart gEnd : Int)
    (bookingList : List Booking) : Option Nat :=
  match uidToPitchId uid with
  | some p => some p
  | none => ((getAvailablePitches pitches ageU gStart gEnd bookingList).head?).map Pitch.id

/-- Function `resolveLocalTeamId` (page.tsx 398-409): exact age match first,
then case-insensitive name containment, else none. -/
def resolveLocalTeamId (teams : List Team) (targetAge : Option Int)
    (bfvTeamName : List Char) : Option Nat :=
  let byName :=
    (teams.find? (fun t =>
      jsIncludes (t.name.map jsToLower) (bfvTeamName.map jsToLower))).map Team.id
  match targetAge with
  | some a =>
      match teams.find? (fun t => t.age_u = a) with
      | some t => some t.id
      | none => byName
  | none => byName

/-! ### The booking reconciler as a state machine -/

/-- The slice of a parsed game that `bookApproved` uses (uid, summary and the
two instants; the source field `end` is called `stop` here because `end` is a
Lean keyword). -/
structure BfvGame where
  uid : List Char
  summary : List Char
  start : Int
  stop : Int
deriving DecidableEq

/-- The mutable state relevant to booking: `store` is the external bookings
table (every inserted row not yet deleted); `bookings`, `bookedMap` and
`bookedPitchByUid` are the page's state, all three rebuilt from the
range-restricted query result of `loadBookingsForRange` on every reload;
`nextId` models the store generating fresh booking ids. -/
structure SysState where
  store : List Booking
  bookings : List Booking
  nextId : Nat
  bookedMap : List Char → Option Nat
  bookedPitchByUid : List Char → Option Nat

/-- Initial page state: empty store, no bookings loaded, empty maps. -/
def initState : SysState :=
  { store := [], bookings := [], nextId := 0, bookedMap := fun _ => none,
    bookedPitchByUid := fun _ => none }

/-- The row inserted by `bookApproved` (page.tsx 530-542): status APPROVED,
the fixture's interval, the chosen pitch, the resolved team, and the note
embedding the fixture tag. -/
def newBooking (st : SysState) (g : BfvGame) (pitchId localTeamId sessionUid : Nat) :
    Booking :=
  { id := st.nextId, start_at := g.start, end_at := g.stop,
    status := "APPROVED".toList, note := some (mkBookingNote g.summary g.uid),
    team_id := localTeamId, pitch_id := pitchId, created_by := sessionUid }

/-- Function `bookApproved` (page.tsx 514-563) as a state transition: resolve
the local team (on failure the insert never happens), insert an APPROVED
booking whose note embeds the fixture tag, reload the page state from the
range-restricted query (`loadBookingsForRange(range.start, range.end)`,
line 548, which replaces `bookings` and both maps wholesale), then
additionally merge `uid -> ins.id` and `uid -> pitchId` into the maps as
lines 553-556 do.  `rangeStart`/`rangeEnd` are the page's `range` state,
set by `loadGames` before any booking action is reachable. -/
def bookApprovedStep (teams : List Team) (targetAge : Option Int)
    (bfvTeamName : List Char) (sessionUid : Nat) (rangeStart rangeEnd : Int)
    (st : SysState) (g : BfvGame) (pitchId : Nat) : SysState :=
  match resolveLocalTeamId teams targetAge bfvTeamName with
  | none => st
  | some localTeamId =>
      let store' := st.store ++ [newBooking st g pitchId localTeamId sessionUid]
      let list := loadBookingsInRange rangeStart rangeEnd store'
      { store := store', bookings := list, nextId := st.nextId + 1,
        bookedMap := fun k => if k = g.uid then some st.nextId else buildUidMap list k,
        bookedPitchByUid := fun k =>
          if k = g.uid then some pitchId else buildPitchMap list k }

/-- Function `undoBooking` (page.tsx 565-604) as a state transition: a no-op
when the map has no booking id for the fixture; otherwise delete that row,
reload the page state from the range-restricted query (line 578), and
delete the fixture's key from both maps (lines 588-597). -/
def undoBookingStep (rangeStart rangeEnd : Int) (st : SysState)
    (gameUid : List Char) : SysState :=
  match st.bookedMap gameUid with
  | none => st
  | some bookingId =>
      let store' := st.store.filter (fun b => b.id ≠ bookingId)
      let list := loadBookingsInRange rangeStart rangeEnd store'
      { store := store', bookings := list, nextId := st.nextId,
        bookedMap := fun k => if k = gameUid then none else buildUidMap list k,
        bookedPitchByUid := fun k =>
          if k = gameUid then none else buildPitchMap list k }

/-- Number of store rows whose note embeds the tag of the given fixture id. -/
def taggedCount (uid : List Char) (l : List Booking) : Nat :=
  l.countP (fun b => findBfvUid b.note == some uid)

/-- A fixture whose id and summary cannot confuse the tag scan: nonempty id
without a closing bracket, and a summary that does not itself contain the
tag prefix. -/
def cleanGame (g : BfvGame) : Prop :=
  g.uid ≠ [] ∧ ']' ∉ g.uid ∧ hasTagHeadCi g.summary = false

/-- States reachable through the page under the window proviso: booking is
offered only for a fixture with no mapped booking (the book button is
rendered only when `!isBooked`, page.tsx 818-826), undo is always offered.
Beyond the page's own guard, the `book` constructor restricts histories to
tag-clean fixtures whose interval lies within the reload window
(`rangeStart ≤ start` and `stop < rangeEnd`): the page does NOT enforce
this, and without it the booking of the latest-ending fixture
(`end_at = rangeEnd`) is dropped from every reload and the invariant fails
(see the C1 counterexample). -/
inductive Reachable (teams : List Team) (targetAge : Option Int)
    (bfvTeamName : List Char) (sessionUid : Nat) (rangeStart rangeEnd : Int) :
    SysState → Prop
  | init : Reachable teams targetAge bfvTeamName sessionUid rangeStart rangeEnd initState
  | book (st : SysState) (g : BfvGame) (pitchId : Nat) :
      Reachable teams targetAge bfvTeamName sessionUid rangeStart rangeEnd st →
      cleanGame g →
      st.bookedMap g.uid = none →
      rangeStart ≤ g.start →
      g.stop < rangeEnd →
      Reachable teams targetAge bfvTeamName sessionUid rangeStart rangeEnd
        (bookApprovedStep teams targetAge bfvTeamName sessionUid rangeStart rangeEnd
          st g pitchId)
  | undo (st : SysState) (gameUid : List Char) :
      Reachable teams targetAge bfvTeamName sessionUid rangeStart rangeEnd st →
      Reachable teams targetAge bfvTeamName sessionUid rangeStart rangeEnd
        (undoBookingStep rangeStart rangeEnd st gameUid)

/-! ### Calendar parser -/

/-- Result of `parseDt` (page.tsx 76-83): a `Date` built either with
`Date.UTC` or with the local-time constructor.  The six numeric arguments
are kept as parsed (the source passes month minus one to the constructor,
a fixed representational shift that does not affect equality). -/
inductive DateVal
  | utc (y mo d h mi s : Nat)
  | loc (y mo d h mi s : Nat)
deriving DecidableEq

/-- Numeric value of two ASCII digits. -/
def dig2 (a b : Char) : Nat := (a.toNat - 48) * 10 + (b.toNat - 48)

/-- Numeric value of four ASCII digits. -/
def dig4 (a b c d : Char) : Nat := dig2 a b * 100 + dig2 c d

/-- The `parseDt` closure (page.tsx 76-83): the compact timestamp
`YYYYMMDDTHHMMSS`, optionally suffixed `Z`; anything else is `null`. -/
def parseDt (v : List Char) : Option DateVal :=
  match v with
  | [y1, y2, y3, y4, a1, a2, d1, d2c, t, h1, h2, m1, m2, s1, s2] =>
      if (t = 'T') &&
          ([y1, y2, y3, y4, a1, a2, d1, d2c, h1, h2, m1, m2, s1, s2].all isDigitCh) then
        some (DateVal.loc (dig4 y1 y2 y3 y4) (dig2 a1 a2) (dig2 d1 d2c)
          (dig2 h1 h2) (dig2 m1 m2) (dig2 s1 s2))
      else none
  | [y1, y2, y3, y4, a1, a2, d1, d2c, t, h1, h2, m1, m2, s1, s2, z] =>
      if (t = 'T') && (z = 'Z') &&
          ([y1, y2, y3, y4, a1, a2, d1, d2c, h1, h2, m1, m2, s1, s2].all isDigitCh) then
        some (DateVal.utc (dig4 y1 y2 y3 y4) (dig2 a1 a2) (dig2 d1 d2c)
          (dig2 h1 h2) (dig2 m1 m2) (dig2 s1 s2))
      else none
  | _ => none

/-- JS `replace(/\r\n/g, "\n")`: left-to-right, non-overlapping. -/
def replaceCrLf : List Char → List Char
  | [] => []
  | [c] => [c]
  | c1 :: c2 :: rest =>
      if c1 = '\r' ∧ c2 = '\n' then '\n' :: replaceCrLf rest
      else c1 :: replaceCrLf (c2 :: rest)

/-- JS `split("\n")`, as first line plus remaining lines (the split result is
never empty). -/
def splitNlAux : List Char → List Char × List (List Char)
  | [] => ([], [])
  | c :: rest =>
      if c = '\n' then ([], (splitNlAux rest).1 :: (splitNlAux rest).2)
      else (c :: (splitNlAux rest).1, (splitNlAux rest).2)

/-- JS `split("\n")`. -/
def splitNl (t : List Char) : List (List Char) := (splitNlAux t).1 :: (splitNlAux t).2

/-- The continuation test `/^[ \t]/` (page.tsx 58). -/
def isFoldStart (l : List Char) : Bool :=
  match l with
  | [] => false
  | c :: _ => c = ' ' || c = '\t'

/-- The unfolding loop of `unfoldIcsLines` (page.tsx 56-61), restructured
recursively: `cur` is the logical line currently being assembled (the last
element of the source's `out` array); a continuation line is appended to it
after `trimStart`, any other line finishes it and starts a new one.  The
first physical line always becomes `cur` as-is, which matches the source
pushing a leading continuation line verbatim while `out` is empty. -/
def unfoldAux (cur : List Char) : List (List Char) → List (List Char)
  | [] => [cur]
  | l :: ls =>
      if isFoldStart l then unfoldAux (cur ++ l.dropWhile isJsWs) ls
      else cur :: unfoldAux l ls

/-- Unfolding over a line list. -/
def unfoldLinesCore : List (List Char) → List (List Char)
  | [] => []
  | l :: ls => unfoldAux l ls

/-- Function `unfoldIcsLines` (page.tsx 54-62). -/
def unfoldIcsLines (raw : List Char) : List (List Char) :=
  unfoldLinesCore (splitNl (replaceCrLf raw))

/-- Type `IcsGame` (page.tsx 38-45); the source field `end` is called `stop`
because `end` is a Lean keyword. -/
structure IcsGame where
  uid : List Char
  summary : List Char
  start : DateVal
  stop : DateVal
  location : Option (List Char)
  isHome : Option Bool
deriving DecidableEq

/-- The per-event accumulator of `parseIcs` (page.tsx 68-74). -/
structure EvState where
  inEvent : Bool
  uid : List Char
  summary : List Char
  location : List Char
  dtStart : Option DateVal
  dtEnd : Option DateVal

/-- Accumulator at the start of the parse loop. -/
def initEvState : EvState :=
  { inEvent := false, uid := [], summary := [], location := [],
    dtStart := none, dtEnd := none }

/-- The value part of a field line: JS `line.split(":").slice(1).join(":")`,
everything after the first colon (empty when there is no colon). -/
def afterFirstColon (l : List Char) : List Char :=
  (l.dropWhile (fun c => c ≠ ':')).drop 1

/-- Field recognition inside an event (page.tsx 111-120), in the source's
else-if order. -/
def applyEventLine (line : List Char) (st : EvState) : EvState :=
  if ("UID:".toList).isPrefixOf line then
    { st with uid := jsTrim (line.drop 4) }
  else if ("SUMMARY:".toList).isPrefixOf line then
    { st with summary := jsTrim (line.drop 8) }
  else if ("LOCATION:".toList).isPrefixOf line then
    { st with location := jsTrim (line.drop 9) }
  else if ("DTSTART".toList).isPrefixOf line then
    { st with dtStart := parseDt (jsTrim (afterFirstColon line)) }
  else if ("DTEND".toList).isPrefixOf line then
    { st with dtEnd := parseDt (jsTrim (afterFirstColon line)) }
  else st

/-- The record emission at `END:VEVENT` (page.tsx 95-108): a game is pushed
only when the event was open and uid, summary, start and end are all present
(truthy); the location becomes `null` when empty. -/
def emitGame (st : EvState) : List IcsGame :=
  match st.dtStart, st.dtEnd with
  | some s, some e =>
      if st.inEvent ∧ st.uid ≠ [] ∧ st.summary ≠ [] then
        [{ uid := st.uid, summary := st.summary, start := s, stop := e,
           location := if st.location.isEmpty then none else some st.location,
           isHome := none }]
      else []
  | _, _ => []

/-- The line loop of `parseIcs` (page.tsx 85-121). -/
def parseLoop : List (List Char) → EvState → List IcsGame
  | [], _ => []
  | line :: rest, st =>
      if ("BEGIN:VEVENT".toList).isPrefixOf line then
        parseLoop rest
          { inEvent := true, uid := [], summary := [], location := [],
            dtStart := none, dtEnd := none }
      else if ("END:VEVENT".toList).isPrefixOf line then
        emitGame st ++ parseLoop rest { st with inEvent := false }
      else if !st.inEvent then parseLoop rest st
      else parseLoop rest (applyEventLine line st)

/-- Function `parseIcs` (page.tsx 64-124). -/
def parseIcs (raw : List Char) : List IcsGame :=
  parseLoop (unfoldIcsLines raw) initEvState

example :
    parseIcs ("BEGIN:VEVENT\nUID:u1\nSUMMARY:FC Stern - SV Gegner\nDTSTART:20260222T140000Z\nDTEND:20260222T160000Z\nEND:VEVENT".toList)
      = [{ uid := "u1".toList, summary := "FC Stern - SV Gegner".toList,
           start := DateVal.utc 2026 2 22 14 0 0, stop := DateVal.utc 2026 2 22 16 0 0,
           location := none, isHome := none }] := by decide

example :
    parseIcs ("BEGIN:VEVENT\r\nUID:u1\r\nSUMMARY:FC St\r\n ern\r\nDTSTART:20260222T140000\r\nDTEND:20260222T160000\r\nEND:VEVENT".toList)
      = [{ uid := "u1".toList, summary := "FC Stern".toList,
           start := DateVal.loc 2026 2 22 14 0 0, stop := DateVal.loc 2026 2 22 16 0 0,
           location := none, isHome := none }] := by decide

example :
    parseIcs ("BEGIN:VEVENT\nUID:u1\nSUMMARY:x\nDTSTART:2026-02-22T14:00\nDTEND:20260222T160000Z\nEND:VEVENT".toList)
      = [] := by decide

/-! ### Helper lemmas for the availability engine -/

/-- Membership characterisation of `getAvailablePitches`: an age-eligible
pitch is in the result exactly when every occupancy-blocking booking on it
fails the overlap test. -/
theorem mem_getAvailablePitches (pitches : List Pitch) (ageU : Option Int)
    (gStart gEnd : Int) (bookings : List Booking) (p : Pitch) :
    p ∈ getAvailablePitches pitches ageU gStart gEnd bookings ↔
      p ∈ allowedPitchesForAge pitches ageU ∧
        ∀ b ∈ bookings, isBlockingStatus b.status = true → b.pitch_id = p.id →
          overlaps gStart gEnd b.start_at b.end_at = false := by
  unfold getAvailablePitches
  rw [List.mem_filter]
  simp only [Bool.not_eq_true', List.any_eq_false, List.mem_filter, Bool.and_eq_true,
    Bool.not_eq_true]
  constructor
  · rintro ⟨hc, hall⟩
    refine ⟨hc, fun b hb hbs hbp => ?_⟩
    have h := hall b ⟨hb, hbs⟩
    rwa [if_neg (not_not_intro hbp)] at h
  · rintro ⟨hc, himp⟩
    refine ⟨hc, fun b hb => ?_⟩
    by_cases hpe : b.pitch_id = p.id
    · rw [if_neg (not_not_intro hpe)]
      exact himp b hb.1 hb.2 hpe
    · rw [if_pos hpe]

/-- The age filter always returns a sublist of the inventory. -/
theorem allowedPitchesForAge_sublist (pitches : List Pitch) (ageU : Option Int) :
    (allowedPitchesForAge pitches ageU).Sublist pitches := by
  cases ageU with
  | none => exact List.Sublist.refl pitches
  | some a =>
      by_cases h : a ≥ 14
      · simp only [allowedPitchesForAge, if_pos h]
        exact List.filter_sublist pitches
      · simp only [allowedPitchesForAge, if_neg h]
        exact List.Sublist.refl pitches

/-- The availability result is a sublist of the inventory (stable order). -/
theorem getAvailablePitches_sublist (pitches : List Pitch) (ageU : Option Int)
    (gStart gEnd : Int) (bookings : List Booking) :
    (getAvailablePitches pitches ageU gStart gEnd bookings).Sublist pitches := by
  unfold getAvailablePitches
  exact (List.filter_sublist _).trans (allowedPitchesForAge_sublist pitches ageU)

/-! ### Claim C2 -/

/-- C2: for an age-eligible pitch, exclusion from the availability result is
equivalent to the existence of a requested/approved booking on that pitch
satisfying the half-open overlap predicate; a booking ending exactly at the
fixture's start never overlaps, and a rejected status is never blocking. -/
theorem C2_overlap_blocking (pitches : List Pitch) (ageU : Option Int)
    (gStart gEnd : Int) (bookings : List Booking) (p : Pitch)
    (hp : p ∈ allowedPitchesForAge pitches ageU) :
    (p ∉ getAvailablePitches pitches ageU gStart gEnd bookings ↔
      ∃ b ∈ bookings, isBlockingStatus b.status = true ∧ b.pitch_id = p.id ∧
        overlaps gStart gEnd b.start_at b.end_at = true) ∧
    (∀ bS : Int, overlaps gStart gEnd bS gStart = false) ∧
    isBlockingStatus ("REJECTED".toList) = false := by
  refine ⟨?_, ?_, by decide⟩
  · rw [mem_getAvailablePitches]
    constructor
    · intro hout
      rcases not_and_or.mp hout with h | h
      · exact absurd hp h
      · push_neg at h
        rcases h with ⟨b, hb, hbs, hbp, hov⟩
        exact ⟨b, hb, hbs, hbp, by simpa using hov⟩
    · rintro ⟨b, hb, hbs, hbp, hov⟩ ⟨_, hall⟩
      have := hall b hb hbs hbp
      rw [this] at hov
      exact absurd hov (by simp)
  · intro bS
    unfold overlaps
    simp

/-- Witness for C2: a compact pitch, no age restriction, one approved
booking 13:00-15:00 against a fixture 14:00-16:00 blocks it. -/
theorem C2_witness :
    ((⟨1, "platz a".toList, PitchType.KOMPAKT⟩ : Pitch) ∈
        allowedPitchesForAge [⟨1, "platz a".toList, PitchType.KOMPAKT⟩] none) ∧
    (((⟨1, "platz a".toList, PitchType.KOMPAKT⟩ : Pitch) ∉
        getAvailablePitches [⟨1, "platz a".toList, PitchType.KOMPAKT⟩] none 14 16
          [⟨10, 13, 15, "APPROVED".toList, none, 0, 1, 0⟩] ↔
      ∃ b ∈ [(⟨10, 13, 15, "APPROVED".toList, none, 0, 1, 0⟩ : Booking)],
        isBlockingStatus b.status = true ∧ b.pitch_id = 1 ∧
          overlaps 14 16 b.start_at b.end_at = true) ∧
      (∀ bS : Int, overlaps 14 16 bS 14 = false) ∧
      isBlockingStatus ("REJECTED".toList) = false) :=
  ⟨by decide,
    C2_overlap_blocking [⟨1, "platz a".toList, PitchType.KOMPAKT⟩] none 14 16
      [⟨10, 13, 15, "APPROVED".toList, none, 0, 1, 0⟩]
      ⟨1, "platz a".toList, PitchType.KOMPAKT⟩ (by decide)⟩

/-! ### Claim C10 -/

/-- C10: the availability computation never exempts a fixture's own linked
booking: a requested/approved booking on pitch `p` carrying exactly the
fixture's own interval (as `bookApproved` creates it) excludes `p` for a
nondegenerate fixture window. -/
theorem C10_own_booking_blocks (pitches : List Pitch) (ageU : Option Int)
    (g : BfvGame) (bookings : List Booking) (p : Pitch) (b : Booking)
    (hb : b ∈ bookings) (hstatus : isBlockingStatus b.status = true)
    (hpitch : b.pitch_id = p.id) (hstart : b.start_at = g.start)
    (hend : b.end_at = g.stop) (hne : g.start < g.stop) :
    p ∉ getAvailablePitches pitches ageU g.start g.stop bookings := by
  intro hin
  rw [mem_getAvailablePitches] at hin
  have hov := hin.2 b hb hstatus hpitch
  rw [hstart, hend] at hov
  unfold overlaps at hov
  simp [hne] at hov

/-- Witness for C10: the booking created by booking the fixture itself
(identical interval, approved) removes the booked pitch from a later
availability computation for the same fixture. -/
theorem C10_witness :
    ((⟨5, 0, 100, "APPROVED".toList, none, 0, 1, 0⟩ : Booking) ∈
        [(⟨5, 0, 100, "APPROVED".toList, none, 0, 1, 0⟩ : Booking)]) ∧
    (⟨1, "platz a".toList, PitchType.KOMPAKT⟩ : Pitch) ∉
      getAvailablePitches [⟨1, "platz a".toList, PitchType.KOMPAKT⟩] none
        (⟨"u1".toList, "s".toList, 0, 100⟩ : BfvGame).start
        (⟨"u1".toList, "s".toList, 0, 100⟩ : BfvGame).stop
        [⟨5, 0, 100, "APPROVED".toList, none, 0, 1, 0⟩] :=
  ⟨by decide,
    C10_own_booking_blocks [⟨1, "platz a".toList, PitchType.KOMPAKT⟩] none
      ⟨"u1".toList, "s".toList, 0, 100⟩
      [⟨5, 0, 100, "APPROVED".toList, none, 0, 1, 0⟩]
      ⟨1, "platz a".toList, PitchType.KOMPAKT⟩
      ⟨5, 0, 100, "APPROVED".toList, none, 0, 1, 0⟩
      (by decide) (by decide) (by decide) (by decide) (by decide) (by decide)⟩

/-! ### Claim C9 -/

/-- C9: a null age or an age below 14 leaves the inventory untouched; age 14
or above keeps exactly the full-size pitches whose lowercased name contains
`mitte` or `rechts` (the centre/right designators); availability preserves
the inventory's stable order, and for an unbooked fixture the default
suggestion is the head of the availability result. -/
theorem C9_age_filter (pitches : List Pitch) (ageU : Option Int) (uid : List Char)
    (gStart gEnd : Int) (bookings : List Booking) :
    ((ageU = none ∨ ∃ a, ageU = some a ∧ a < 14) →
      allowedPitchesForAge pitches ageU = pitches) ∧
    (∀ a, ageU = some a → 14 ≤ a →
      allowedPitchesForAge pitches ageU
        = pitches.filter (fun p => (p.type = PitchType.GROSSFELD) &&
            (jsIncludes (p.name.map jsToLower) ("mitte".toList) ||
              jsIncludes (p.name.map jsToLower) ("rechts".toList)))) ∧
    (getAvailablePitches pitches ageU gStart gEnd bookings).Sublist pitches ∧
    (buildPitchMap bookings uid = none →
      defaultPitchFor (buildPitchMap bookings) pitches ageU uid gStart gEnd bookings
        = ((getAvailablePitches pitches ageU gStart gEnd bookings).head?).map Pitch.id) := by
  refine ⟨?_, ?_, getAvailablePitches_sublist pitches ageU gStart gEnd bookings, ?_⟩
  · rintro (h | ⟨a, ha, hlt⟩)
    · rw [h]; rfl
    · rw [ha]
      simp only [allowedPitchesForAge, if_neg (not_le.mpr hlt)]
  · intro a ha hge
    rw [ha]
    simp only [allowedPitchesForAge, if_pos hge]
  · intro h
    unfold defaultPitchFor
    rw [h]

/-- Witness for C9: a two-pitch inventory at age 16 keeps only the full-size
centre pitch; the default suggestion is the head of the availability list. -/
theorem C9_witness :
    allowedPitchesForAge
        [⟨1, "platz mitte".toList, PitchType.GROSSFELD⟩,
          ⟨2, "kompakt 1".toList, PitchType.KOMPAKT⟩] none
      = [⟨1, "platz mitte".toList, PitchType.GROSSFELD⟩,
          ⟨2, "kompakt 1".toList, PitchType.KOMPAKT⟩] ∧
    allowedPitchesForAge
        [⟨1, "platz mitte".toList, PitchType.GROSSFELD⟩,
          ⟨2, "kompakt 1".toList, PitchType.KOMPAKT⟩] (some 16)
      = ([⟨1, "platz mitte".toList, PitchType.GROSSFELD⟩,
          ⟨2, "kompakt 1".toList, PitchType.KOMPAKT⟩].filter
          (fun p => (p.type = PitchType.GROSSFELD) &&
            (jsIncludes (p.name.map jsToLower) ("mitte".toList) ||
              jsIncludes (p.name.map jsToLower) ("rechts".toList)))) ∧
    defaultPitchFor (buildPitchMap [])
        [⟨1, "platz mitte".toList, PitchType.GROSSFELD⟩,
          ⟨2, "kompakt 1".toList, PitchType.KOMPAKT⟩] (some 16) ("u1".toList) 0 10 []
      = ((getAvailablePitches
            [⟨1, "platz mitte".toList, PitchType.GROSSFELD⟩,
              ⟨2, "kompakt 1".toList, PitchType.KOMPAKT⟩] (some 16) 0 10 []).head?).map
          Pitch.id :=
  ⟨(C9_age_filter _ none ("u1".toList) 0 10 []).1 (Or.inl rfl),
    (C9_age_filter _ (some 16) ("u1".toList) 0 10 []).2.1 16 rfl (by decide),
    (C9_age_filter _ (some 16) ("u1".toList) 0 10 []).2.2.2 (by decide)⟩

/-! ### Claim C7 -/

/-- The member at the end of a list belongs to the list. -/
theorem mem_of_getLast?_eq_some {α : Type} {l : List α} {b : α}
    (h : l.getLast? = some b) : b ∈ l := by
  induction l with
  | nil => simp at h
  | cons a t ih =>
      cases t with
      | nil =>
          simp only [List.getLast?_singleton, Option.some.injEq] at h
          simp [h]
      | cons c u =>
          rw [List.getLast?_cons_cons] at h
          exact List.mem_cons_of_mem a (ih h)

/-- The write of one booking into the uid map (body of the loop at
page.tsx 385-390). -/
def uidMapWrite (m : List Char → Option Nat) (b : Booking) : List Char → Option Nat :=
  match findBfvUid b.note with
  | none => m
  | some uid => fun k => if k = uid then some b.id else m k

/-- The uid-map fold, with one write factored out. -/
theorem buildUidMap_def (l : List Booking) :
    buildUidMap l = l.foldl uidMapWrite (fun _ => none) := rfl

/-- Evaluation of the uid-map fold from an arbitrary accumulator. -/
theorem uidMapWrite_foldl (uid : List Char) :
    ∀ (t : List Booking) (m : List Char → Option Nat),
      (t.foldl uidMapWrite m) uid
        = match (t.filter (fun b => findBfvUid b.note == some uid)).getLast? with
          | some b => some b.id
          | none => m uid := by
  intro t
  induction t with
  | nil => intro m; rfl
  | cons b t ih =>
      intro m
      rw [List.foldl_cons, List.filter_cons]
      have hw : uidMapWrite m b
          = match findBfvUid b.note with
            | none => m
            | some u => fun k => if k = u then some b.id else m k := rfl
      rcases hb : findBfvUid b.note with _ | u
      · have hc : (((none : Option (List Char)) == some uid) : Bool) = false := rfl
        rw [hc, if_neg (by simp), ih]
        cases (t.filter (fun b => findBfvUid b.note == some uid)).getLast? with
        | some b' => rfl
        | none => rw [hw, hb]
      · by_cases hu : uid = u
        · subst hu
          have hc : ((some uid == some uid) : Bool) = true := beq_iff_eq.mpr rfl
          rw [hc, if_pos rfl, ih]
          cases hl : (t.filter (fun b => findBfvUid b.note == some uid)).getLast? with
          | some b' =>
              have hcons :
                  (b :: t.filter (fun b => findBfvUid b.note == some uid)).getLast?
                    = some b' := by
                cases hft : t.filter (fun b => findBfvUid b.note == some uid) with
                | nil => rw [hft] at hl; exact absurd hl (by simp)
                | cons x xs => rw [hft] at hl; rw [List.getLast?_cons_cons, hl]
              rw [hcons]
          | none =>
              have hnil := List.getLast?_eq_none_iff.mp hl
              rw [hnil, List.getLast?_singleton, hw, hb]
              simp
        · have hc : ((some u == some uid) : Bool) = false := by
            have hr : ((some u == some uid) : Bool) = (u == uid) := rfl
            rw [hr]
            exact beq_eq_false_iff_ne.mpr (Ne.symm hu)
          rw [hc, if_neg (by simp), ih]
          cases (t.filter (fun b => findBfvUid b.note == some uid)).getLast? with
          | some b' => rfl
          | none =>
              rw [hw, hb]
              simp [hu]

/-- The uid map is the id of the last booking in list order whose note
carries the fixture's tag (later JS object writes overwrite earlier ones). -/
theorem buildUidMap_eq_getLast (l : List Booking) (uid : List Char) :
    buildUidMap l uid
      = ((l.filter (fun b => findBfvUid b.note == some uid)).getLast?).map Booking.id := by
  rw [buildUidMap_def, uidMapWrite_foldl]
  cases (l.filter (fun b => findBfvUid b.note == some uid)).getLast? <;> rfl

/-- The uid map has no entry exactly when no booking carries the tag. -/
theorem buildUidMap_eq_none_iff (l : List Booking) (uid : List Char) :
    buildUidMap l uid = none ↔
      l.filter (fun b => findBfvUid b.note == some uid) = [] := by
  rw [buildUidMap_eq_getLast]
  cases hl : (l.filter (fun b => findBfvUid b.note == some uid)).getLast? with
  | some b =>
      constructor
      · intro h; simp at h
      · intro hnil
        rw [hnil] at hl
        exact absurd hl (by simp)
  | none => simp [List.getLast?_eq_none_iff.mp hl]

/-- An entry of the uid map is the id of a tagged booking of the list. -/
theorem buildUidMap_eq_some (l : List Booking) (uid : List Char) (bid : Nat)
    (h : buildUidMap l uid = some bid) :
    ∃ b ∈ l, b.id = bid ∧ findBfvUid b.note = some uid := by
  rw [buildUidMap_eq_getLast] at h
  cases hl : (l.filter (fun b => findBfvUid b.note == some uid)).getLast? with
  | none => rw [hl] at h; exact absurd h (by simp)
  | some b =>
      rw [hl] at h
      have hmem : b ∈ l.filter (fun b => findBfvUid b.note == some uid) :=
        mem_of_getLast?_eq_some hl
      rw [List.mem_filter] at hmem
      refine ⟨b, hmem.1, ?_, by simpa using hmem.2⟩
      have h' : some b.id = some bid := h
      exact Option.some.inj h'

/-- C7 (amended): on a booking list violating the at-most-one invariant, the
uid-to-booking lookup built while loading bookings holds the id of the LAST
tagged booking in list order (each later JS object write overwrites the
earlier one), and the scan is total — it never raises on multiplicity. -/
theorem C7_locate_last_match (list : List Booking) (uid : List Char) :
    buildUidMap list uid
      = ((list.filter (fun b => findBfvUid b.note == some uid)).getLast?).map Booking.id :=
  buildUidMap_eq_getLast list uid

/-- Counterexample for C7 as stated: two bookings tagged with the same
fixture id; the lookup returns the id of the second, not the first. -/
theorem C7_counterexample :
    findBfvUid (some (mkBookingNote ("a".toList) ("x".toList))) = some ("x".toList) ∧
    (([⟨1, 0, 1, "APPROVED".toList, some (mkBookingNote ("a".toList) ("x".toList)), 0, 5, 0⟩,
        ⟨2, 0, 1, "APPROVED".toList, some (mkBookingNote ("b".toList) ("x".toList)), 0, 6, 0⟩] :
          List Booking).filter
        (fun b => findBfvUid b.note == some ("x".toList))).head?.map Booking.id
      = some 1 ∧
    buildUidMap
        [⟨1, 0, 1, "APPROVED".toList, some (mkBookingNote ("a".toList) ("x".toList)), 0, 5, 0⟩,
          ⟨2, 0, 1, "APPROVED".toList, some (mkBookingNote ("b".toList) ("x".toList)), 0, 6, 0⟩]
        ("x".toList)
      = some 2 ∧
    (some 2 : Option Nat) ≠ some 1 := by decide

/-! ### Claim C3 -/

/-- C3 (amended): with a side split, classification yields unknown when
NEITHER side contains a match token; when BOTH sides match, the code's
documented tie-break yields home, not unknown. -/
theorem C3_side_match_classification (tokens : List (List Char)) (summary : List Char)
    (location : Option (List Char)) (l r : List Char)
    (hs : splitHomeAway summary = some (l, r)) :
    (matchSide tokens l = false → matchSide tokens r = false →
      classifyIsHome tokens summary location = none) ∧
    (matchSide tokens l = true → matchSide tokens r = true →
      classifyIsHome tokens summary location = some true) := by
  unfold classifyIsHome
  rw [hs]
  constructor <;> intro h1 h2 <;> simp [h1, h2]

/-- Witness for C3's amended statement: `A - B` with no matching token is
unknown; with both sides matching the token `stern`, home. -/
theorem C3_witness :
    splitHomeAway ("FC Stern - TSV Stern, Kreisliga".toList)
      = some ("FC Stern".toList, "TSV Stern".toList) ∧
    classifyIsHome [] ("FC Stern - TSV Stern, Kreisliga".toList) none = none ∧
    classifyIsHome ["stern".toList] ("FC Stern - TSV Stern, Kreisliga".toList) none
      = some true :=
  ⟨by decide,
    (C3_side_match_classification [] ("FC Stern - TSV Stern, Kreisliga".toList) none
      ("FC Stern".toList) ("TSV Stern".toList) (by decide)).1 (by decide) (by decide),
    (C3_side_match_classification ["stern".toList]
      ("FC Stern - TSV Stern, Kreisliga".toList) none
      ("FC Stern".toList) ("TSV Stern".toList) (by decide)).2 (by decide) (by decide)⟩

/-- Counterexample for C3 as stated: a summary whose two sides both contain
the match token is classified home (`some true`), not unknown (`none`). -/
theorem C3_counterexample :
    splitHomeAway ("FC Stern - TSV Stern, Kreisliga".toList)
      = some ("FC Stern".toList, "TSV Stern".toList) ∧
    matchSide (buildMatchTokens ["FC Stern".toList]) ("FC Stern".toList) = true ∧
    matchSide (buildMatchTokens ["FC Stern".toList]) ("TSV Stern".toList) = true ∧
    classifyIsHome (buildMatchTokens ["FC Stern".toList])
      ("FC Stern - TSV Stern, Kreisliga".toList) none = some true ∧
    (some true : Option Bool) ≠ none := by decide

/-! ### Claim C4 -/

/-- C4: evaluation of `normalizeForMatch` at the German special letters.
The NFKD stage decomposes a precomposed umlaut and the combining-mark strip
removes its diaeresis BEFORE the `ae`, `oe`, `ue` replacements run, so those
three replacements never fire: the umlauts come out as bare `a`, `o`, `u`,
against the stated `ae`, `oe`, `ue` (only the sharp s, which NFKD leaves
alone, is folded to `ss` as stated). -/
theorem C4_umlaut_normalization :
    normalizeForMatch [chUuml] = ['u'] ∧
    normalizeForMatch [chAuml] = ['a'] ∧
    normalizeForMatch [chOuml] = ['o'] ∧
    normalizeForMatch [chSzlig] = ['s', 's'] ∧
    normalizeForMatch ("Grün".toList) = "grun".toList ∧
    normalizeForMatch ("Grün".toList) ≠ "gruen".toList := by decide

/-! ### Claim C5 -/

/-- Every game emitted by the parse loop has a nonempty uid and summary. -/
theorem parseLoop_required_fields (lines : List (List Char)) :
    ∀ (st : EvState) (g : IcsGame), g ∈ parseLoop lines st →
      g.uid ≠ [] ∧ g.summary ≠ [] := by
  induction lines with
  | nil => intro st g hg; simp [parseLoop] at hg
  | cons line rest ih =>
      intro st g hg
      rw [parseLoop] at hg
      by_cases hbeg : (("BEGIN:VEVENT".toList).isPrefixOf line : Bool)
      · rw [if_pos hbeg] at hg
        exact ih _ g hg
      · rw [if_neg hbeg] at hg
        by_cases hend : (("END:VEVENT".toList).isPrefixOf line : Bool)
        · rw [if_pos hend, List.mem_append] at hg
          rcases hg with hg | hg
          · unfold emitGame at hg
            rcases hds : st.dtStart with _ | ds
            all_goals rcases hde : st.dtEnd with _ | de
            all_goals rw [hds, hde] at hg
            all_goals simp only [List.not_mem_nil] at hg
            by_cases hok : st.inEvent = true ∧ st.uid ≠ [] ∧ st.summary ≠ []
            · rw [if_pos hok] at hg
              rw [List.mem_singleton] at hg
              subst hg
              exact ⟨hok.2.1, hok.2.2⟩
            · rw [if_neg hok] at hg
              simp at hg
          · exact ih _ g hg
        · rw [if_neg hend] at hg
          by_cases hin : st.inEvent
          · rw [if_neg (by simp [hin])] at hg
            exact ih _ g hg
          · rw [if_pos (by simp [hin])] at hg
            exact ih _ g hg

/-- C5: the parser is total and every fixture it emits carries the full
required field set: nonempty identifier and summary (start and end are
present by construction, since a record is emitted only after both
timestamps parsed to non-null values, see `emitGame`). -/
theorem C5_required_fields (raw : List Char) (g : IcsGame)
    (hg : g ∈ parseIcs raw) : g.uid ≠ [] ∧ g.summary ≠ [] :=
  parseLoop_required_fields (unfoldIcsLines raw) initEvState g hg

/-- Witness for C5 on a concrete feed with one complete record. -/
theorem C5_witness :
    ({ uid := "u1".toList, summary := "FC Stern - SV Gegner".toList,
       start := DateVal.utc 2026 2 22 14 0 0, stop := DateVal.utc 2026 2 22 16 0 0,
       location := none, isHome := none } : IcsGame) ∈
        parseIcs ("BEGIN:VEVENT\nUID:u1\nSUMMARY:FC Stern - SV Gegner\nDTSTART:20260222T140000Z\nDTEND:20260222T160000Z\nEND:VEVENT".toList) ∧
    (({ uid := "u1".toList, summary := "FC Stern - SV Gegner".toList,
        start := DateVal.utc 2026 2 22 14 0 0, stop := DateVal.utc 2026 2 22 16 0 0,
        location := none, isHome := none } : IcsGame).uid ≠ [] ∧
      ({ uid := "u1".toList, summary := "FC Stern - SV Gegner".toList,
         start := DateVal.utc 2026 2 22 14 0 0, stop := DateVal.utc 2026 2 22 16 0 0,
         location := none, isHome := none } : IcsGame).summary ≠ []) :=
  ⟨by decide,
    C5_required_fields
      ("BEGIN:VEVENT\nUID:u1\nSUMMARY:FC Stern - SV Gegner\nDTSTART:20260222T140000Z\nDTEND:20260222T160000Z\nEND:VEVENT".toList)
      _ (by decide)⟩

/-! ### Claim C6 -/

/-- C6 (amended): the tag round-trips exactly for every fixture whose id is
nonempty and free of `]`, PROVIDED the summary embedded before the tag does
not itself contain the tag prefix (case-insensitively): the scan on the note
written by `book` returns exactly the fixture's id, and never any other id. -/
theorem C6_tag_roundtrip (summary uid : List Char)
    (h1 : uid ≠ []) (h2 : ']' ∉ uid) (h3 : hasTagHeadCi summary = false) :
    findBfvUid (some (mkBookingNote summary uid)) = some uid ∧
    ∀ other, findBfvUid (some (mkBookingNote summary uid)) = some other → other = uid := by
  have hred : findBfvUid (some (mkBookingNote summary uid))
      = findBfvUidIn (mkBookingNote summary uid) := rfl
  have hmain := findBfvUidIn_mkNote summary uid h1 h2 h3
  refine ⟨by rw [hred, hmain], fun other hother => ?_⟩
  rw [hred, hmain] at hother
  exact (Option.some.inj hother).symm

/-- Witness for C6: the round-trip at the spec's example id `abc123`. -/
theorem C6_witness :
    findBfvUid (some (mkBookingNote ("FC Stern - SV Gegner".toList) ("abc123".toList)))
      = some ("abc123".toList) :=
  (C6_tag_roundtrip ("FC Stern - SV Gegner".toList) ("abc123".toList)
    (by decide) (by decide) (by decide)).1

/-- Counterexample for C6 as stated: a summary that itself contains a tag
occurrence makes the scan capture the impostor id instead of the fixture's
own nonempty, bracket-free id. -/
theorem C6_counterexample :
    ("abc123".toList ≠ []) ∧ (']' ∉ "abc123".toList) ∧
    findBfvUid (some (mkBookingNote ("Spiel [BFV_UID:evil] x".toList) ("abc123".toList)))
      = some ("evil".toList) ∧
    some ("evil".toList) ≠ some ("abc123".toList) := by decide

/-! ### Claim C1 -/

/-- Unfolding of a successful booking step. -/
theorem bookApprovedStep_some (teams : List Team) (targetAge : Option Int)
    (bfvTeamName : List Char) (sessionUid : Nat) (rangeStart rangeEnd : Int)
    (st : SysState) (g : BfvGame) (pitchId localTeamId : Nat)
    (hres : resolveLocalTeamId teams targetAge bfvTeamName = some localTeamId) :
    bookApprovedStep teams targetAge bfvTeamName sessionUid rangeStart rangeEnd
        st g pitchId =
      { store := st.store ++ [newBooking st g pitchId localTeamId sessionUid],
        bookings := loadBookingsInRange rangeStart rangeEnd
          (st.store ++ [newBooking st g pitchId localTeamId sessionUid]),
        nextId := st.nextId + 1,
        bookedMap := fun k =>
          if k = g.uid then some st.nextId
          else buildUidMap (loadBookingsInRange rangeStart rangeEnd
            (st.store ++ [newBooking st g pitchId localTeamId sessionUid])) k,
        bookedPitchByUid := fun k =>
          if k = g.uid then some pitchId
          else buildPitchMap (loadBookingsInRange rangeStart rangeEnd
            (st.store ++ [newBooking st g pitchId localTeamId sessionUid])) k } := by
  unfold bookApprovedStep
  rw [hres]

/-- Unfolding of a booking step whose team resolution fails. -/
theorem bookApprovedStep_none (teams : List Team) (targetAge : Option Int)
    (bfvTeamName : List Char) (sessionUid : Nat) (rangeStart rangeEnd : Int)
    (st : SysState) (g : BfvGame) (pitchId : Nat)
    (hres : resolveLocalTeamId teams targetAge bfvTeamName = none) :
    bookApprovedStep teams targetAge bfvTeamName sessionUid rangeStart rangeEnd
      st g pitchId = st := by
  unfold bookApprovedStep
  rw [hres]

/-- Unfolding of an undo with no mapped booking. -/
theorem undoBookingStep_none (rangeStart rangeEnd : Int) (st : SysState)
    (gameUid : List Char) (h : st.bookedMap gameUid = none) :
    undoBookingStep rangeStart rangeEnd st gameUid = st := by
  unfold undoBookingStep
  rw [h]

/-- Unfolding of an undo with a mapped booking id. -/
theorem undoBookingStep_some (rangeStart rangeEnd : Int) (st : SysState)
    (gameUid : List Char) (bookingId : Nat)
    (h : st.bookedMap gameUid = some bookingId) :
    undoBookingStep rangeStart rangeEnd st gameUid =
      { store := st.store.filter (fun b => b.id ≠ bookingId),
        bookings := loadBookingsInRange rangeStart rangeEnd
          (st.store.filter (fun b => b.id ≠ bookingId)),
        nextId := st.nextId,
        bookedMap := fun k =>
          if k = gameUid then none
          else buildUidMap (loadBookingsInRange rangeStart rangeEnd
            (st.store.filter (fun b => b.id ≠ bookingId))) k,
        bookedPitchByUid := fun k =>
          if k = gameUid then none
          else buildPitchMap (loadBookingsInRange rangeStart rangeEnd
            (st.store.filter (fun b => b.id ≠ bookingId))) k } := by
  unfold undoBookingStep
  rw [h]

/-- When every row lies within the window, the range-restricted query
returns the whole store. -/
theorem loadBookingsInRange_all (rangeStart rangeEnd : Int) (l : List Booking)
    (h : ∀ b ∈ l, rangeStart ≤ b.start_at ∧ b.end_at < rangeEnd) :
    loadBookingsInRange rangeStart rangeEnd l = l := by
  unfold loadBookingsInRange
  rw [List.filter_eq_self]
  intro b hb
  have hw := h b hb
  simp [hw.1, hw.2]

/-- Appending a booking tagged with `uid` makes it the uid map's entry. -/
theorem buildUidMap_append_tagged (l : List Booking) (b : Booking) (uid : List Char)
    (htag : findBfvUid b.note = some uid) :
    buildUidMap (l ++ [b]) uid = some b.id := by
  rw [buildUidMap_eq_getLast, List.filter_append]
  have hb : List.filter (fun x => findBfvUid x.note == some uid) [b] = [b] := by
    simp [List.filter_cons, htag]
  rw [hb, List.getLast?_concat]
  rfl

/-- Tag count of a list extended by one booking. -/
theorem taggedCount_append (l : List Booking) (b : Booking) (u : List Char) :
    taggedCount u (l ++ [b])
      = taggedCount u l + (if findBfvUid b.note = some u then 1 else 0) := by
  unfold taggedCount
  rw [List.countP_append]
  congr 1
  by_cases h : findBfvUid b.note = some u
  · simp [List.countP_cons, h]
  · simp [List.countP_cons, h]

/-- A fixture id absent from the uid map has no tagged booking. -/
theorem taggedCount_eq_zero (l : List Booking) (uid : List Char)
    (h : buildUidMap l uid = none) : taggedCount uid l = 0 := by
  unfold taggedCount
  rw [List.countP_eq_length_filter, (buildUidMap_eq_none_iff l uid).mp h]
  rfl

/-- Two distinct members satisfying a predicate give a count of at least 2. -/
theorem two_le_countP {α : Type} (p : α → Bool) {l : List α} {a b : α}
    (ha : a ∈ l) (hb : b ∈ l) (hab : a ≠ b) (hpa : p a = true) (hpb : p b = true) :
    2 ≤ l.countP p := by
  induction l with
  | nil => simp at ha
  | cons x t ih =>
      rw [List.countP_cons]
      rcases List.mem_cons.mp ha with ha1 | ha2
      · rcases List.mem_cons.mp hb with hb1 | hb2
        · exact absurd (ha1.trans hb1.symm) hab
        · have h1 : 0 < t.countP p := List.countP_pos_iff.mpr ⟨b, hb2, hpb⟩
          rw [ha1] at hpa
          rw [if_pos hpa]
          omega
      · rcases List.mem_cons.mp hb with hb1 | hb2
        · have h1 : 0 < t.countP p := List.countP_pos_iff.mpr ⟨a, ha2, hpa⟩
          rw [hb1] at hpb
          rw [if_pos hpb]
          omega
        · have h2 := ih ha2 hb2
          by_cases hx : p x = true
          · rw [if_pos hx]; omega
          · rw [if_neg hx]; omega

/-- Deleting the mapped booking removes every tagged row when the at-most-one
invariant held. -/
theorem buildUidMap_after_erase (l : List Booking) (uid : List Char) (bid : Nat)
    (hcount : taggedCount uid l ≤ 1)
    (hex : ∃ b ∈ l, b.id = bid ∧ findBfvUid b.note = some uid) :
    buildUidMap (l.filter (fun b => b.id ≠ bid)) uid = none := by
  rw [buildUidMap_eq_none_iff, List.filter_eq_nil_iff]
  rintro b' hb'
  rw [List.mem_filter] at hb'
  obtain ⟨b, hb, hbid, htag⟩ := hex
  intro htag'
  have hid' : b'.id ≠ bid := by simpa using hb'.2
  have hne : b ≠ b' := fun he => hid' (he ▸ hbid)
  have h2 : 2 ≤ taggedCount uid l := by
    unfold taggedCount
    exact two_le_countP _ hb hb'.1 hne (by simp [htag]) htag'
  omega

/-- The invariant carried through all reachable states: at most one tagged
booking per fixture id in the store, the page's uid map agrees with a fresh
rebuild from the full store, and every store row lies within the reload
window (the last conjunct is what the window proviso on booked fixtures
buys: without it a row with `end_at = rangeEnd` escapes every reload). -/
def StoreInv (rangeStart rangeEnd : Int) (st : SysState) : Prop :=
  (∀ uid, taggedCount uid st.store ≤ 1) ∧
  (∀ k, st.bookedMap k = buildUidMap st.store k) ∧
  (∀ b ∈ st.store, rangeStart ≤ b.start_at ∧ b.end_at < rangeEnd)

/-- A guarded, tag-clean, in-window booking step preserves the invariant. -/
theorem storeInv_book (teams : List Team) (targetAge : Option Int)
    (bfvTeamName : List Char) (sessionUid : Nat) (rangeStart rangeEnd : Int)
    (st : SysState) (g : BfvGame) (pitchId : Nat)
    (hInv : StoreInv rangeStart rangeEnd st) (hc : cleanGame g)
    (hguard : st.bookedMap g.uid = none)
    (hga : rangeStart ≤ g.start) (hgb : g.stop < rangeEnd) :
    StoreInv rangeStart rangeEnd
      (bookApprovedStep teams targetAge bfvTeamName sessionUid rangeStart rangeEnd
        st g pitchId) := by
  cases hres : resolveLocalTeamId teams targetAge bfvTeamName with
  | none =>
      rw [bookApprovedStep_none teams targetAge bfvTeamName sessionUid rangeStart rangeEnd
        st g pitchId hres]
      exact hInv
  | some localTeamId =>
      rw [bookApprovedStep_some teams targetAge bfvTeamName sessionUid rangeStart rangeEnd
        st g pitchId localTeamId hres]
      obtain ⟨hcount, hmap, hwin⟩ := hInv
      obtain ⟨hu1, hu2, hu3⟩ := hc
      have hwin' :
          ∀ b ∈ st.store ++ [newBooking st g pitchId localTeamId sessionUid],
            rangeStart ≤ b.start_at ∧ b.end_at < rangeEnd := by
        intro b hb
        rcases List.mem_append.mp hb with hb | hb
        · exact hwin b hb
        · rw [List.mem_singleton] at hb
          subst hb
          exact ⟨hga, hgb⟩
      have hlist :
          loadBookingsInRange rangeStart rangeEnd
              (st.store ++ [newBooking st g pitchId localTeamId sessionUid])
            = st.store ++ [newBooking st g pitchId localTeamId sessionUid] :=
        loadBookingsInRange_all rangeStart rangeEnd _ hwin'
      have hguard' : buildUidMap st.store g.uid = none := (hmap g.uid) ▸ hguard
      have htag :
          findBfvUid (newBooking st g pitchId localTeamId sessionUid).note = some g.uid := by
        have hred :
            findBfvUid (newBooking st g pitchId localTeamId sessionUid).note
              = findBfvUidIn (mkBookingNote g.summary g.uid) := rfl
        rw [hred]
        exact findBfvUidIn_mkNote g.summary g.uid hu1 hu2 hu3
      refine ⟨?_, ?_, hwin'⟩
      · intro u
        show taggedCount u (st.store ++ [newBooking st g pitchId localTeamId sessionUid]) ≤ 1
        rw [taggedCount_append]
        by_cases hu : g.uid = u
        · subst hu
          rw [taggedCount_eq_zero st.store g.uid hguard', if_pos htag]
        · rw [if_neg (fun h => hu (by simpa [htag] using h))]
          simpa using hcount u
      · intro k
        show (if k = g.uid then some st.nextId
            else buildUidMap (loadBookingsInRange rangeStart rangeEnd
              (st.store ++ [newBooking st g pitchId localTeamId sessionUid])) k)
          = buildUidMap (st.store ++ [newBooking st g pitchId localTeamId sessionUid]) k
        rw [hlist]
        by_cases hk : k = g.uid
        · rw [if_pos hk, hk,
            buildUidMap_append_tagged st.store (newBooking st g pitchId localTeamId sessionUid)
              g.uid htag]
          rfl
        · rw [if_neg hk]

/-- Every undo step preserves the invariant. -/
theorem storeInv_undo (rangeStart rangeEnd : Int) (st : SysState)
    (gameUid : List Char) (hInv : StoreInv rangeStart rangeEnd st) :
    StoreInv rangeStart rangeEnd (undoBookingStep rangeStart rangeEnd st gameUid) := by
  obtain ⟨hcount, hmap, hwin⟩ := hInv
  cases hm : st.bookedMap gameUid with
  | none =>
      rw [undoBookingStep_none rangeStart rangeEnd st gameUid hm]
      exact ⟨hcount, hmap, hwin⟩
  | some bookingId =>
      rw [undoBookingStep_some rangeStart rangeEnd st gameUid bookingId hm]
      have hex : ∃ b ∈ st.store, b.id = bookingId ∧ findBfvUid b.note = some gameUid :=
        buildUidMap_eq_some st.store gameUid bookingId ((hmap gameUid) ▸ hm)
      have hwin' :
          ∀ b ∈ st.store.filter (fun b => b.id ≠ bookingId),
            rangeStart ≤ b.start_at ∧ b.end_at < rangeEnd := by
        intro b hb
        exact hwin b (List.mem_of_mem_filter hb)
      have hlist :
          loadBookingsInRange rangeStart rangeEnd
              (st.store.filter (fun b => b.id ≠ bookingId))
            = st.store.filter (fun b => b.id ≠ bookingId) :=
        loadBookingsInRange_all rangeStart rangeEnd _ hwin'
      refine ⟨?_, ?_, hwin'⟩
      · intro u
        show taggedCount u (st.store.filter (fun b => b.id ≠ bookingId)) ≤ 1
        calc taggedCount u (st.store.filter (fun b => b.id ≠ bookingId))
            ≤ taggedCount u st.store :=
              List.Sublist.countP_le _ (List.filter_sublist st.store)
          _ ≤ 1 := hcount u
      · intro k
        show (if k = gameUid then none
            else buildUidMap (loadBookingsInRange rangeStart rangeEnd
              (st.store.filter (fun b => b.id ≠ bookingId))) k)
          = buildUidMap (st.store.filter (fun b => b.id ≠ bookingId)) k
        rw [hlist]
        by_cases hk : k = gameUid
        · rw [if_pos hk, hk,
            buildUidMap_after_erase st.store gameUid bookingId (hcount gameUid) hex]
        · rw [if_neg hk]

/-- The invariant holds in every reachable state. -/
theorem reachable_storeInv (teams : List Team) (targetAge : Option Int)
    (bfvTeamName : List Char) (sessionUid : Nat) (rangeStart rangeEnd : Int)
    (st : SysState)
    (h : Reachable teams targetAge bfvTeamName sessionUid rangeStart rangeEnd st) :
    StoreInv rangeStart rangeEnd st := by
  induction h with
  | init =>
      exact ⟨fun uid => by simp [initState, taggedCount], fun k => rfl,
        fun b hb => absurd hb (by simp [initState])⟩
  | book st g pitchId hr hc hguard hga hgb ih =>
      exact storeInv_book teams targetAge bfvTeamName sessionUid rangeStart rangeEnd
        st g pitchId ih hc hguard hga hgb
  | undo st gameUid hr ih => exact storeInv_undo rangeStart rangeEnd st gameUid ih

/-- C1 (amended): in every state reachable through the page whose booking
history stays within the reload window -- the book action is offered only
for a fixture with no mapped booking, fixtures are tag-clean, and every
booked fixture's interval satisfies rangeStart <= start and
stop < rangeEnd -- at most one store row embeds a given fixture's tag; and
a second undo for the same fixture id is always a no-op, never an error.
The window proviso is necessary: the reload keeps only rows with
end_at strictly below rangeEnd, so the page's guard reopens for the
latest-ending fixture (see the counterexample). -/
theorem C1_reconciler_idempotence (teams : List Team) (targetAge : Option Int)
    (bfvTeamName : List Char) (sessionUid : Nat) (rangeStart rangeEnd : Int)
    (st : SysState)
    (h : Reachable teams targetAge bfvTeamName sessionUid rangeStart rangeEnd st) :
    (∀ uid, taggedCount uid st.store ≤ 1) ∧
    (∀ uid, undoBookingStep rangeStart rangeEnd
        (undoBookingStep rangeStart rangeEnd st uid) uid
      = undoBookingStep rangeStart rangeEnd st uid) := by
  refine ⟨(reachable_storeInv teams targetAge bfvTeamName sessionUid rangeStart rangeEnd
    st h).1, fun uid => ?_⟩
  cases hm : st.bookedMap uid with
  | none =>
      rw [undoBookingStep_none rangeStart rangeEnd st uid hm,
        undoBookingStep_none rangeStart rangeEnd st uid hm]
  | some bookingId =>
      rw [undoBookingStep_some rangeStart rangeEnd st uid bookingId hm]
      apply undoBookingStep_none
      show (if uid = uid then none
          else buildUidMap (loadBookingsInRange rangeStart rangeEnd
            (st.store.filter (fun b => b.id ≠ bookingId))) uid) = none
      rw [if_pos rfl]

/-- Witness for C1: booking one clean, in-window fixture from the initial
state is a reachable history; it leaves at most one tagged store row for
that fixture and a double undo collapses to a single undo. -/
theorem C1_witness :
    taggedCount ("u1".toList)
        (bookApprovedStep [⟨7, "u14 jungs".toList, 14⟩] (some 14) ("u14".toList) 9 0 1000
          initState ⟨"u1".toList, "FC Stern - SV Gegner".toList, 10, 20⟩ 5).store ≤ 1 ∧
    undoBookingStep 0 1000
        (undoBookingStep 0 1000
          (bookApprovedStep [⟨7, "u14 jungs".toList, 14⟩] (some 14) ("u14".toList) 9 0 1000
            initState ⟨"u1".toList, "FC Stern - SV Gegner".toList, 10, 20⟩ 5)
          ("u1".toList))
        ("u1".toList)
      = undoBookingStep 0 1000
          (bookApprovedStep [⟨7, "u14 jungs".toList, 14⟩] (some 14) ("u14".toList) 9 0 1000
            initState ⟨"u1".toList, "FC Stern - SV Gegner".toList, 10, 20⟩ 5)
          ("u1".toList) :=
  ⟨(C1_reconciler_idempotence [⟨7, "u14 jungs".toList, 14⟩] (some 14) ("u14".toList) 9 0 1000 _
      (Reachable.book initState ⟨"u1".toList, "FC Stern - SV Gegner".toList, 10, 20⟩ 5
        Reachable.init (by refine ⟨by decide, by decide, by decide⟩) (by decide)
        (by decide) (by decide))).1
    ("u1".toList),
    (C1_reconciler_idempotence [⟨7, "u14 jungs".toList, 14⟩] (some 14) ("u14".toList) 9 0 1000 _
      (Reachable.book initState ⟨"u1".toList, "FC Stern - SV Gegner".toList, 10, 20⟩ 5
        Reachable.init (by refine ⟨by decide, by decide, by decide⟩) (by decide)
        (by decide) (by decide))).2
    ("u1".toList)⟩

/-- Counterexample for C1 as stated, using only operations the page offers.
Fixtures f1 (10-12) and f2 (14-16), reload window 10 to 16 (the page's
range runs from the min start to the max end of the loaded games).  Book
f2: its row has end_at 16, which the query's strict end_at-below-rangeEnd
filter excludes, so every later reload rebuilds the maps without it.  Book
f1: the reload inside that call wipes f2's mapping, so the page offers book
for f2 again (third conjunct).  Book f2 a second time: the store now holds
two rows embedding f2's tag -- a sequence of page-offered book operations,
each taken with no mapped booking for its fixture and with no undo at all,
creates a second fixture-linked booking. -/
theorem C1_counterexample :
    initState.bookedMap ("f2".toList) = none ∧
    (bookApprovedStep [⟨7, "u14 jungs".toList, 14⟩] (some 14) ("u14".toList) 9 10 16
        initState ⟨"f2".toList, "s2".toList, 14, 16⟩ 5).bookedMap ("f1".toList) = none ∧
    (bookApprovedStep [⟨7, "u14 jungs".toList, 14⟩] (some 14) ("u14".toList) 9 10 16
        (bookApprovedStep [⟨7, "u14 jungs".toList, 14⟩] (some 14) ("u14".toList) 9 10 16
          initState ⟨"f2".toList, "s2".toList, 14, 16⟩ 5)
        ⟨"f1".toList, "s1".toList, 10, 12⟩ 6).bookedMap ("f2".toList) = none ∧
    taggedCount ("f2".toList)
        (bookApprovedStep [⟨7, "u14 jungs".toList, 14⟩] (some 14) ("u14".toList) 9 10 16
          (bookApprovedStep [⟨7, "u14 jungs".toList, 14⟩] (some 14) ("u14".toList) 9 10 16
            (bookApprovedStep [⟨7, "u14 jungs".toList, 14⟩] (some 14) ("u14".toList) 9 10 16
              initState ⟨"f2".toList, "s2".toList, 14, 16⟩ 5)
            ⟨"f1".toList, "s1".toList, 10, 12⟩ 6)
          ⟨"f2".toList, "s2".toList, 14, 16⟩ 5).store = 2 ∧
    ¬(2 ≤ 1) := by
  refine ⟨rfl, by decide, by decide, by decide, by decide⟩

/-! ### Claim C8: re-wrapping a feed across continuation lines -/

/-- A string that does not begin with (JS) whitespace. -/
def HeadNotWs (l : List Char) : Prop :=
  ∀ d u, l = d :: u → isJsWs d = false

/-- Continuation lines jointly carrying the text `rest`: each line is a
horizontal-whitespace marker followed by a piece that does not itself begin
with whitespace (so that `trimStart` removes exactly the marker). -/
inductive Conts : List Char → List (List Char) → Prop
  | nil : Conts [] []
  | cons (w : Char) (piece rest : List Char) (cs : List (List Char)) :
      (w = ' ' ∨ w = '\t') → HeadNotWs piece → Conts rest cs →
      Conts (piece ++ rest) ((w :: piece) :: cs)

/-- Pointwise re-wrapping of a line list: every logical line becomes its
leading piece followed by continuation lines carrying the remainder. -/
inductive RefoldLines : List (List Char) → List (List Char) → Prop
  | nil : RefoldLines [] []
  | cons (p rest : List Char) (cs : List (List Char)) (ls gs : List (List Char)) :
      Conts rest cs → RefoldLines ls gs →
      RefoldLines ((p ++ rest) :: ls) (p :: (cs ++ gs))

/-- Text-level re-wrapping as the claim amended states it: anywhere after a
non-CR character, a line break plus one horizontal whitespace marker may be
inserted, provided the remaining text does not begin with whitespace. -/
inductive Rewrap : List Char → List Char → Prop
  | nil : Rewrap [] []
  | keep (c : Char) (t t' : List Char) : Rewrap t t' → Rewrap (c :: t) (c :: t')
  | split (c w : Char) (t t' : List Char) :
      c ≠ '\r' → (w = ' ' ∨ w = '\t') → HeadNotWs t → Rewrap t t' →
      Rewrap (c :: t) (c :: '\n' :: w :: t')

/-- Text-level re-wrapping exactly as the claim states it: after any
character, a line break plus one horizontal whitespace marker may be
inserted, with no condition on the surrounding text. -/
inductive RewrapClaim : List Char → List Char → Prop
  | nil : RewrapClaim [] []
  | keep (c : Char) (t t' : List Char) : RewrapClaim t t' → RewrapClaim (c :: t) (c :: t')
  | split (c w : Char) (t t' : List Char) :
      (w = ' ' ∨ w = '\t') → RewrapClaim t t' → RewrapClaim (c :: t) (c :: '\n' :: w :: t')

theorem rewrap_refl (t : List Char) : Rewrap t t := by
  induction t with
  | nil => exact Rewrap.nil
  | cons c u ih => exact Rewrap.keep c u u ih

theorem rewrap_append (s t t' : List Char) (h : Rewrap t t') :
    Rewrap (s ++ t) (s ++ t') := by
  induction s with
  | nil => exact h
  | cons c u ih => exact Rewrap.keep c (u ++ t) (u ++ t') ih

theorem rewrapClaim_refl (t : List Char) : RewrapClaim t t := by
  induction t with
  | nil => exact RewrapClaim.nil
  | cons c u ih => exact RewrapClaim.keep c u u ih

theorem rewrapClaim_append (s t t' : List Char) (h : RewrapClaim t t') :
    RewrapClaim (s ++ t) (s ++ t') := by
  induction s with
  | nil => exact h
  | cons c u ih => exact RewrapClaim.keep c (u ++ t) (u ++ t') ih

theorem dropWhile_headNotWs (p : List Char) (h : HeadNotWs p) :
    p.dropWhile isJsWs = p := by
  cases p with
  | nil => rfl
  | cons d u => simp [List.dropWhile_cons, h d u rfl]

theorem dropWhile_append_headNotWs (p r : List Char) (h : HeadNotWs r) :
    (p ++ r).dropWhile isJsWs = p.dropWhile isJsWs ++ r := by
  induction p with
  | nil => simpa using dropWhile_headNotWs r h
  | cons c cs ih =>
      by_cases hc : isJsWs c = true
      · simp [List.dropWhile_cons, hc, ih]
      · simp [List.dropWhile_cons, hc]

theorem conts_headNotWs (rest : List Char) (cs : List (List Char))
    (h : Conts rest cs) : HeadNotWs rest := by
  induction h with
  | nil => intro d u hdu; exact absurd hdu (by simp)
  | cons w piece rest cs hw hp hcont ih =>
      intro d u hdu
      cases hpc : piece with
      | nil =>
          rw [hpc] at hdu
          simp only [List.nil_append] at hdu
          exact ih d u hdu
      | cons x xs =>
          rw [hpc] at hdu
          rw [List.cons_append] at hdu
          have hd : d = x := (List.cons.inj hdu.symm).1
          rw [hd]
          exact hp x xs hpc

theorem unfoldAux_conts (rest : List Char) (cs : List (List Char)) (h : Conts rest cs) :
    ∀ (cur : List Char) (tail : List (List Char)),
      unfoldAux cur (cs ++ tail) = unfoldAux (cur ++ rest) tail := by
  induction h with
  | nil => intro cur tail; simp
  | cons w piece rest cs hw hp hcont ih =>
      intro cur tail
      rw [List.cons_append]
      have hfold : isFoldStart (w :: piece) = true := by
        rcases hw with h | h <;> subst h <;> rfl
      have hws : isJsWs w = true := by
        rcases hw with h | h <;> subst h <;> decide
      have hdrop : (w :: piece).dropWhile isJsWs = piece := by
        rw [List.dropWhile_cons, if_pos hws, dropWhile_headNotWs piece hp]
      simp only [unfoldAux, hfold, if_true, hdrop]
      rw [ih, List.append_assoc]

theorem isFoldStart_eq_false_of_headNotWs (l : List Char) (h : HeadNotWs l) :
    isFoldStart l = false := by
  cases l with
  | nil => rfl
  | cons d u =>
      have hd := h d u rfl
      unfold isFoldStart
      unfold isJsWs at hd
      simp only [Bool.or_eq_false_iff, decide_eq_false_iff_not] at hd ⊢
      tauto

theorem refold_unfoldAux (ls gs : List (List Char)) (h : RefoldLines ls gs) :
    ∀ cur, unfoldAux cur gs = unfoldAux cur ls := by
  induction h with
  | nil => intro cur; rfl
  | cons p rest cs ls gs hconts hrefold ih =>
      intro cur
      have hrest := conts_headNotWs rest cs hconts
      by_cases hfold : isFoldStart p = true
      · have hp : ∃ x xs, p = x :: xs := by
          cases p with
          | nil => exact absurd hfold (by simp [isFoldStart])
          | cons x xs => exact ⟨x, xs, rfl⟩
        obtain ⟨x, xs, hpx⟩ := hp
        have hfoldL : isFoldStart (p ++ rest) = true := by
          rw [hpx, List.cons_append]
          rw [hpx] at hfold
          exact hfold
        simp only [unfoldAux, hfold, hfoldL, if_true]
        rw [unfoldAux_conts rest cs hconts, ih,
          dropWhile_append_headNotWs p rest hrest, List.append_assoc]
      · have hfold' : isFoldStart p = false := by
          cases hcf : isFoldStart p with
          | false => rfl
          | true => exact absurd hcf hfold
        have hfoldL : isFoldStart (p ++ rest) = false := by
          cases hpc : p with
          | nil =>
              rw [List.nil_append]
              exact isFoldStart_eq_false_of_headNotWs rest hrest
          | cons x xs =>
              rw [List.cons_append]
              rw [hpc] at hfold'
              exact hfold'
        simp only [unfoldAux, hfold', hfoldL, Bool.false_eq_true, if_false]
        rw [unfoldAux_conts rest cs hconts, ih]

theorem replaceCrLf_cons_ne (c : Char) (t : List Char) (hc : c ≠ '\r') :
    replaceCrLf (c :: t) = c :: replaceCrLf t := by
  cases t with
  | nil => rfl
  | cons c2 rest =>
      simp only [replaceCrLf]
      rw [if_neg (fun h => hc h.1)]

theorem replaceCrLf_crlf (t : List Char) :
    replaceCrLf ('\r' :: '\n' :: t) = '\n' :: replaceCrLf t := rfl

theorem replaceCrLf_cr_ne (t : List Char) (h : ∀ d u, t = d :: u → d ≠ '\n') :
    replaceCrLf ('\r' :: t) = '\r' :: replaceCrLf t := by
  cases t with
  | nil => rfl
  | cons d u =>
      simp only [replaceCrLf]
      rw [if_neg (fun hh => h d u rfl hh.2)]

theorem splitNlAux_nl_fst (t : List Char) : (splitNlAux ('\n' :: t)).1 = [] := by
  simp [splitNlAux]

theorem splitNlAux_nl_snd (t : List Char) :
    (splitNlAux ('\n' :: t)).2 = (splitNlAux t).1 :: (splitNlAux t).2 := by
  simp [splitNlAux]

theorem splitNlAux_ne_fst (c : Char) (t : List Char) (h : c ≠ '\n') :
    (splitNlAux (c :: t)).1 = c :: (splitNlAux t).1 := by
  simp [splitNlAux, h]

theorem splitNlAux_ne_snd (c : Char) (t : List Char) (h : c ≠ '\n') :
    (splitNlAux (c :: t)).2 = (splitNlAux t).2 := by
  simp [splitNlAux, h]

theorem rewrap_nil_inv (t' : List Char) (h : Rewrap [] t') : t' = [] := by
  cases h
  rfl

theorem rewrap_cons_inv (d : Char) (u t' : List Char) (h : Rewrap (d :: u) t') :
    ∃ r, t' = d :: r := by
  cases h with
  | keep _ _ t'0 _ => exact ⟨t'0, rfl⟩
  | split _ w _ t'0 _ _ _ _ => exact ⟨'\n' :: w :: t'0, rfl⟩

theorem headNotWs_rewrap (t t' : List Char) (h : Rewrap t t') (hn : HeadNotWs t) :
    HeadNotWs t' := by
  cases t with
  | nil =>
      rw [rewrap_nil_inv t' h]
      intro d u hdu
      exact absurd hdu (by simp)
  | cons d u =>
      obtain ⟨r, hr⟩ := rewrap_cons_inv d u t' h
      intro d' u' ht'
      rw [hr] at ht'
      cases ht'
      exact hn d u rfl

theorem headNotWs_replaceCrLf (t : List Char) (h : HeadNotWs t) :
    HeadNotWs (replaceCrLf t) := by
  cases t with
  | nil =>
      intro d u hdu
      exact absurd hdu (by simp [replaceCrLf])
  | cons d u =>
      have hd := h d u rfl
      have hdr : d ≠ '\r' := by
        intro he
        rw [he] at hd
        exact absurd hd (by decide)
      rw [replaceCrLf_cons_ne d u hdr]
      intro d' u' heq
      cases heq
      exact hd

theorem headNotWs_splitNlAux (X : List Char) (h : HeadNotWs X) :
    HeadNotWs (splitNlAux X).1 := by
  cases X with
  | nil =>
      intro d u hdu
      exact absurd hdu (by simp [splitNlAux])
  | cons d u =>
      have hd := h d u rfl
      have hdn : d ≠ '\n' := by
        intro he
        rw [he] at hd
        exact absurd hd (by decide)
      rw [splitNlAux_ne_fst d u hdn]
      intro d' u' heq
      cases heq
      exact hd

/-- The heart of C8: re-wrapping a feed text relates the line lists of the
original and the re-wrapped text by a pointwise refold. -/
theorem rewrap_splitLines (t t' : List Char) (h : Rewrap t t') :
    ∃ (rest : List Char) (cs gs : List (List Char)),
      (splitNlAux (replaceCrLf t)).1 = (splitNlAux (replaceCrLf t')).1 ++ rest ∧
      (splitNlAux (replaceCrLf t')).2 = cs ++ gs ∧
      Conts rest cs ∧
      RefoldLines (splitNlAux (replaceCrLf t)).2 gs := by
  induction h with
  | nil => exact ⟨[], [], [], rfl, rfl, Conts.nil, RefoldLines.nil⟩
  | keep c t t' hr ih =>
      obtain ⟨rest, cs, gs, h1, h2, h3, h4⟩ := ih
      by_cases hc : c = '\r'
      · subst hc
        cases ht : t with
        | nil =>
            have ht' := rewrap_nil_inv t' (ht ▸ hr)
            subst ht
            subst ht'
            exact ⟨[], [], [], by simp, rfl, Conts.nil, RefoldLines.nil⟩
        | cons d u =>
            subst ht
            by_cases hdn : d = '\n'
            · subst hdn
              obtain ⟨r, hr'⟩ := rewrap_cons_inv '\n' u t' hr
              subst hr'
              have e1 : replaceCrLf ('\r' :: '\n' :: u) = replaceCrLf ('\n' :: u) := by
                rw [replaceCrLf_crlf, replaceCrLf_cons_ne '\n' u (by decide)]
              have e2 : replaceCrLf ('\r' :: '\n' :: r) = replaceCrLf ('\n' :: r) := by
                rw [replaceCrLf_crlf, replaceCrLf_cons_ne '\n' r (by decide)]
              rw [e1, e2]
              exact ⟨rest, cs, gs, h1, h2, h3, h4⟩
            · have e1 : replaceCrLf ('\r' :: d :: u) = '\r' :: replaceCrLf (d :: u) := by
                apply replaceCrLf_cr_ne
                intro d' u' hdu
                cases hdu
                exact hdn
              obtain ⟨r, hr'⟩ := rewrap_cons_inv d u t' hr
              subst hr'
              have e2 : replaceCrLf ('\r' :: d :: r) = '\r' :: replaceCrLf (d :: r) := by
                apply replaceCrLf_cr_ne
                intro d' u' hdu
                cases hdu
                exact hdn
              rw [e1, e2]
              refine ⟨rest, cs, gs, ?_, ?_, h3, ?_⟩
              · rw [splitNlAux_ne_fst '\r' _ (by decide),
                  splitNlAux_ne_fst '\r' _ (by decide), List.cons_append, h1]
              · rw [splitNlAux_ne_snd '\r' _ (by decide)]
                exact h2
              · rw [splitNlAux_ne_snd '\r' _ (by decide)]
                exact h4
      · by_cases hcn : c = '\n'
        · subst hcn
          rw [replaceCrLf_cons_ne '\n' t (by decide),
            replaceCrLf_cons_ne '\n' t' (by decide)]
          refine ⟨[], [],
            (splitNlAux (replaceCrLf t')).1 :: (splitNlAux (replaceCrLf t')).2,
            ?_, ?_, Conts.nil, ?_⟩
          · rw [splitNlAux_nl_fst, splitNlAux_nl_fst]
            rfl
          · rw [splitNlAux_nl_snd]
            rfl
          · rw [splitNlAux_nl_snd, h2, h1]
            exact RefoldLines.cons _ rest cs _ gs h3 h4
        · rw [replaceCrLf_cons_ne c t hc, replaceCrLf_cons_ne c t' hc]
          refine ⟨rest, cs, gs, ?_, ?_, h3, ?_⟩
          · rw [splitNlAux_ne_fst c _ hcn, splitNlAux_ne_fst c _ hcn,
              List.cons_append, h1]
          · rw [splitNlAux_ne_snd c _ hcn]
            exact h2
          · rw [splitNlAux_ne_snd c _ hcn]
            exact h4
  | split c w t t' hcr hw hhead hr ih =>
      obtain ⟨rest, cs, gs, h1, h2, h3, h4⟩ := ih
      have hwr : w ≠ '\r' := by rcases hw with h | h <;> subst h <;> decide
      have hwn : w ≠ '\n' := by rcases hw with h | h <;> subst h <;> decide
      have e1 : replaceCrLf (c :: t) = c :: replaceCrLf t := replaceCrLf_cons_ne c t hcr
      have e2 : replaceCrLf (c :: '\n' :: w :: t') = c :: '\n' :: w :: replaceCrLf t' := by
        rw [replaceCrLf_cons_ne c _ hcr, replaceCrLf_cons_ne '\n' _ (by decide),
          replaceCrLf_cons_ne w _ hwr]
      have hl' : HeadNotWs (splitNlAux (replaceCrLf t')).1 :=
        headNotWs_splitNlAux _ (headNotWs_replaceCrLf t' (headNotWs_rewrap t t' hr hhead))
      have hcl' : Conts ((splitNlAux (replaceCrLf t)).1)
          ((w :: (splitNlAux (replaceCrLf t')).1) :: cs) := by
        rw [h1]
        exact Conts.cons w _ rest cs hw hl' h3
      rw [e1, e2]
      by_cases hcn : c = '\n'
      · subst hcn
        refine ⟨[], [],
          [] :: ((w :: (splitNlAux (replaceCrLf t')).1) :: (cs ++ gs)), ?_, ?_, Conts.nil, ?_⟩
        · rw [splitNlAux_nl_fst, splitNlAux_nl_fst]
          rfl
        · rw [splitNlAux_nl_snd, splitNlAux_nl_snd, splitNlAux_nl_fst,
            splitNlAux_ne_fst w _ hwn, splitNlAux_ne_snd w _ hwn, h2]
          rfl
        · rw [splitNlAux_nl_snd]
          have hcons := RefoldLines.cons []
            ((splitNlAux (replaceCrLf t)).1)
            ((w :: (splitNlAux (replaceCrLf t')).1) :: cs)
            ((splitNlAux (replaceCrLf t)).2) gs hcl' h4
          simpa using hcons
      · refine ⟨(splitNlAux (replaceCrLf t)).1,
          (w :: (splitNlAux (replaceCrLf t')).1) :: cs, gs, ?_, ?_, hcl', ?_⟩
        · rw [splitNlAux_ne_fst c _ hcn, splitNlAux_ne_fst c _ hcn, splitNlAux_nl_fst]
          rfl
        · rw [splitNlAux_ne_snd c _ hcn, splitNlAux_nl_snd,
            splitNlAux_ne_fst w _ hwn, splitNlAux_ne_snd w _ hwn, h2]
          rfl
        · rw [splitNlAux_ne_snd c _ hcn]
          exact h4

/-- C8 (amended): re-wrapping any logical line of a feed across additional
continuation lines — inserting a line break plus a horizontal whitespace
marker after a non-CR character at a point where the remaining content does
not itself begin with whitespace — parses to exactly the same fixtures. -/
theorem C8_rewrap_invariance (t t' : List Char) (h : Rewrap t t') :
    parseIcs t' = parseIcs t := by
  obtain ⟨rest, cs, gs, h1, h2, h3, h4⟩ := rewrap_splitLines t t' h
  unfold parseIcs
  have hlines : unfoldIcsLines t' = unfoldIcsLines t := by
    unfold unfoldIcsLines splitNl unfoldLinesCore
    rw [h2]
    show unfoldAux (splitNlAux (replaceCrLf t')).1 (cs ++ gs)
        = unfoldAux (splitNlAux (replaceCrLf t)).1 (splitNlAux (replaceCrLf t)).2
    rw [unfoldAux_conts rest cs h3, refold_unfoldAux _ _ h4, ← h1]
  rw [hlines]

/-- Witness for C8: splitting the SUMMARY line of a concrete feed right
after the colon (continuation content `a b` starts with a non-whitespace
character) yields the same parse. -/
theorem C8_witness :
    parseIcs ("BEGIN:VEVENT\nUID:u1\nSUMMARY\x3a\n a b\nDTSTART:20260222T140000Z\nDTEND:20260222T160000Z\nEND:VEVENT".toList)
      = parseIcs ("BEGIN:VEVENT\nUID:u1\nSUMMARY:a b\nDTSTART:20260222T140000Z\nDTEND:20260222T160000Z\nEND:VEVENT".toList) := by
  apply C8_rewrap_invariance
  have heqT :
      ("BEGIN:VEVENT\nUID:u1\nSUMMARY:a b\nDTSTART:20260222T140000Z\nDTEND:20260222T160000Z\nEND:VEVENT".toList)
        = ("BEGIN:VEVENT\nUID:u1\nSUMMARY".toList) ++
            ':' :: ("a b\nDTSTART:20260222T140000Z\nDTEND:20260222T160000Z\nEND:VEVENT".toList) := by
    decide
  have heqT' :
      ("BEGIN:VEVENT\nUID:u1\nSUMMARY\x3a\n a b\nDTSTART:20260222T140000Z\nDTEND:20260222T160000Z\nEND:VEVENT".toList)
        = ("BEGIN:VEVENT\nUID:u1\nSUMMARY".toList) ++
            ':' :: '\n' :: ' ' ::
              ("a b\nDTSTART:20260222T140000Z\nDTEND:20260222T160000Z\nEND:VEVENT".toList) := by
    decide
  rw [heqT, heqT']
  apply rewrap_append
  apply Rewrap.split ':' ' ' _ _ (by decide) (Or.inl rfl)
  · intro d u hdu
    cases hdu
    decide
  · exact rewrap_refl _

/-- Counterexample for C8 as stated: re-wrapping the SUMMARY line of a feed
at a point where the continuation content begins with a space (allowed by
the claim, which only requires the continuation to START with whitespace)
loses that space during unfolding, so the parses differ. -/
theorem C8_counterexample :
    RewrapClaim
      ("BEGIN:VEVENT\nUID:u1\nSUMMARY:a b\nDTSTART:20260222T140000Z\nDTEND:20260222T160000Z\nEND:VEVENT".toList)
      ("BEGIN:VEVENT\nUID:u1\nSUMMARY:a\n  b\nDTSTART:20260222T140000Z\nDTEND:20260222T160000Z\nEND:VEVENT".toList) ∧
    parseIcs ("BEGIN:VEVENT\nUID:u1\nSUMMARY:a\n  b\nDTSTART:20260222T140000Z\nDTEND:20260222T160000Z\nEND:VEVENT".toList)
      ≠ parseIcs ("BEGIN:VEVENT\nUID:u1\nSUMMARY:a b\nDTSTART:20260222T140000Z\nDTEND:20260222T160000Z\nEND:VEVENT".toList) := by
  constructor
  · have heqT :
        ("BEGIN:VEVENT\nUID:u1\nSUMMARY:a b\nDTSTART:20260222T140000Z\nDTEND:20260222T160000Z\nEND:VEVENT".toList)
          = ("BEGIN:VEVENT\nUID:u1\nSUMMARY:".toList) ++
              'a' :: (" b\nDTSTART:20260222T140000Z\nDTEND:20260222T160000Z\nEND:VEVENT".toList) := by
      decide
    have heqT' :
        ("BEGIN:VEVENT\nUID:u1\nSUMMARY:a\n  b\nDTSTART:20260222T140000Z\nDTEND:20260222T160000Z\nEND:VEVENT".toList)
          = ("BEGIN:VEVENT\nUID:u1\nSUMMARY:".toList) ++
              'a' :: '\n' :: ' ' ::
                (" b\nDTSTART:20260222T140000Z\nDTEND:20260222T160000Z\nEND:VEVENT".toList) := by
      decide
    rw [heqT, heqT']
    exact rewrapClaim_append _ _ _
      (RewrapClaim.split 'a' ' ' _ _ (Or.inl rfl) (rewrapClaim_refl _))
  · decide

end FbsPlan
